import Mathlib

/-!
McpServer: a shallow embedding of `Core/Shared/McpServer.{h,cpp}`

A `std::string` is a `List Char` (one `Char` per byte), a C++ `int` is an `Int`
kept in the 32-bit range by `wrap32` wherever the source computes one (signed
overflow in the digit loop of `ExtractInt` is taken as two's-complement wrap).

The emulator behind `_emu` is a parameter: a state type with one transition per
member function the handlers call.  Its calls act on the emulator state only,
not on `_coreState`.  Left out: the `printf` and `MessageManager::Log` lines,
the `drainCount` counter that only feeds a `printf`, sockets and threads
(`Start`, `Stop`, `ListenLoop`); the receive loop of `HandleClient` is modelled
over the list of chunks `Recv` delivers.
-/

namespace McpServer

/-! ## Strings and integers -/

/-- The text type of the embedding: `std::string` as the list of its characters. -/
abbrev Str := List Char

/-- Two's-complement reduction of an integer to the range of a 32-bit `int`. -/
def wrap32 (x : Int) : Int := (x + 2147483648) % 4294967296 - 2147483648

/-- The range of a C++ `int`. -/
def inInt32 (x : Int) : Prop := -2147483648 ≤ x ∧ x ≤ 2147483647

instance (x : Int) : Decidable (inInt32 x) := by unfold inInt32; infer_instance

/-- Decimal text of an `int`, as `std::to_string` and `operator<<` print it. -/
def to_string (n : Int) : Str :=
  if n < 0 then '-' :: Nat.toDigits 10 n.natAbs else Nat.toDigits 10 n.toNat

/-- `std::string::find(const std::string&)` from position 0, on the suffix that starts at
index `i`: the index of the first occurrence of `pat`, or `none` for `npos`. -/
def findFrom (pat : Str) : Str → Nat → Option Nat
  | [], i => if pat = [] then some i else none
  | c :: cs, i => if pat.isPrefixOf (c :: cs) then some i else findFrom pat cs (i + 1)

/-- `json.find(search)`. -/
def find (s pat : Str) : Option Nat := findFrom pat s 0

/-- `json.find(ch, pos)`: the first index at or after `pos` holding `ch`. -/
def findChar (s : Str) (ch : Char) (pos : Nat) : Option Nat :=
  match (s.drop pos).indexOf? ch with
  | some k => some (pos + k)
  | none => none

/-- The blank test of both extractors: `json[pos] == ' ' || json[pos] == '\t'`. -/
def isBlank (c : Char) : Bool := c == ' ' || c == '\t'

/-- The digit test of `ExtractInt`: `json[pos] >= '0' && json[pos] <= '9'`. -/
def isDigit (c : Char) : Bool := decide (48 ≤ c.toNat) && decide (c.toNat ≤ 57)

/-! ## JSON helpers -/

/-- The copying loop of `ExtractString`, started just after the opening quote. -/
def readString : Str → Str
  | [] => []
  | [c] => if c = '"' then [] else [c]
  | c :: d :: rest =>
    if c = '"' then []
    else if c = '\\' then
      (if d = '"' then '"'
       else if d = '\\' then '\\'
       else if d = 'n' then '\n'
       else d) :: readString rest
    else c :: readString (d :: rest)

/-- The quoted key `"\"" + key + "\""` both extractors search for. -/
def quoted (key : Str) : Str := '"' :: key ++ ['"']

/-- `McpServer::ExtractString`. -/
def ExtractString (json key : Str) : Str :=
  match find json (quoted key) with
  | none => []
  | some pos =>
    match findChar json ':' (pos + (quoted key).length) with
    | none => []
    | some pos =>
      match (json.drop (pos + 1)).dropWhile isBlank with
      | [] => []
      | c :: body => if c = '"' then readString body else []

/-- The digit loop of `ExtractInt`: the accumulated `val` and the `found` flag. -/
def readDigits : Str → Int → Bool → Int × Bool
  | [], val, found => (val, found)
  | c :: rest, val, found =>
    if isDigit c then readDigits rest (wrap32 (val * 10 + ((c.toNat : Int) - 48))) true
    else (val, found)

/-- `McpServer::ExtractInt`. -/
def ExtractInt (json key : Str) (defaultVal : Int) : Int :=
  match find json (quoted key) with
  | none => defaultVal
  | some pos =>
    match findChar json ':' (pos + (quoted key).length) with
    | none => defaultVal
    | some pos =>
      let r := (json.drop (pos + 1)).dropWhile isBlank
      let negative := r.head? = some '-'
      let r := if negative then r.drop 1 else r
      let (val, found) := readDigits r 0 false
      if !found then defaultVal
      else if negative then wrap32 (-val) else val

/-- The text both extractors look at for `key`: what follows the first colon after the first
occurrence of the quoted key, blanks skipped; `none` when the key or the colon is missing. -/
def valueText (json key : Str) : Option Str :=
  match find json (quoted key) with
  | none => none
  | some pos =>
    match findChar json ':' (pos + (quoted key).length) with
    | none => none
    | some pos => some ((json.drop (pos + 1)).dropWhile isBlank)

/-- The number `ExtractInt` reads at the start of the located text. -/
def intOfText (r : Str) (defaultVal : Int) : Int :=
  if r.head? = some '-' then
    (if !(readDigits (r.drop 1) 0 false).2 then defaultVal
     else wrap32 (-(readDigits (r.drop 1) 0 false).1))
  else
    (if !(readDigits r 0 false).2 then defaultVal else (readDigits r 0 false).1)

/-- The wrapped accumulation of the digit loop over a run of digits. -/
def foldDigits (l : Str) (val : Int) : Int :=
  l.foldl (fun a c => wrap32 (a * 10 + ((c.toNat : Int) - 48))) val

/-- `McpServer::OkResponse`. -/
def OkResponse (id : Int) (resultJson : Str) : Str :=
  "\x7b\"ok\":true,\"result\":".toList ++ resultJson ++ ",\"id\":".toList ++ to_string id
    ++ "\x7d".toList

/-- The escaping loop of `ErrorResponse` (it tests the double quote first). -/
def escape : Str → Str
  | [] => []
  | c :: cs =>
    if c = '"' then '\\' :: '"' :: escape cs
    else if c = '\\' then '\\' :: '\\' :: escape cs
    else c :: escape cs

/-- `McpServer::ErrorResponse`. -/
def ErrorResponse (id : Int) (error : Str) : Str :=
  "\x7b\"ok\":false,\"error\":\"".toList ++ escape error ++ "\",\"id\":".toList ++ to_string id
    ++ "\x7d".toList

/-! ## Commands and control state (`McpServer.h`) -/

/-- `enum class McpCommandType`. -/
inductive McpCommandType
  | LoadRom
  | StepFrame
  | ReadMemory
  | WriteMemory
  | SetInput
  | GetState
  deriving DecidableEq, Repr

/-- `struct McpTypedCommand`: the typed command with its response channel (the mutex and the
condition variable carry no data). -/
structure McpTypedCommand where
  type : McpCommandType
  id : Int := 0
  path : Str := []
  address : Int := 0
  value : Int := 0
  count : Int := 1
  port : Int := 0
  buttons : Int := 0
  response : Str := []
  responseReady : Bool := false
  deriving DecidableEq, Repr

/-- `McpTypedCommand::SetResponse`. -/
def McpTypedCommand.SetResponse (cmd : McpTypedCommand) (resp : Str) : McpTypedCommand :=
  { cmd with response := resp, responseReady := true }

/-- `struct McpCoreState`, with the initial values of its member initialisers. -/
structure McpCoreState where
  consoleType : Int := -1
  romLoaded : Bool := false
  externalControl : Bool := false
  deriving DecidableEq, Repr

/-! ## The emulator, as the handlers see it

`Emulator`, `IConsole`, `Debugger`, `MemoryDumper`, `BaseControlManager` and the enumerations
`ConsoleType`, `MemoryType`, `CpuType` are declared outside `McpServer.{h,cpp}`.  The emulator is
therefore a parameter: an arbitrary state type `E` with one transition per member function the
handlers call.  Every call is also recorded in a log, so that statements can say which calls a
handler made. -/

/-- The `MemoryType` enumerators named by `GetCpuMemoryType`. -/
inductive MemoryType
  | NesMemory
  | SnesMemory
  | GameboyMemory
  | PceMemory
  | SmsMemory
  | GbaMemory
  deriving DecidableEq, Repr

/-- The `CpuType` enumerators named by `GetMainCpuType`. -/
inductive CpuType
  | Nes
  | Snes
  | Gameboy
  | Pce
  | Gba
  deriving DecidableEq, Repr

/-- Integer values of the `ConsoleType` enumerators the source names; the enumeration itself is
declared in `SettingTypes.h`, so its numbering is a parameter. -/
structure ConsoleTypeCodes where
  Nes : Int
  Snes : Int
  Gameboy : Int
  PcEngine : Int
  Sms : Int
  Gba : Int

/-- One call on the emulator, with the arguments the handler passed. -/
inductive EmuCall
  | IsRunning
  | Stop
  | LoadRom (path : Str)
  | GetConsoleType
  | GetConsoleUnsafe
  | RunFrame
  | GetFrameCount
  | GetDebugger
  | GetMemoryValue (memType : MemoryType) (address : Nat)
  | GetMemoryValues (memType : MemoryType) (first last : Nat)
  | SetMemoryValue (memType : MemoryType) (address value : Nat)
  | GetControlManager
  | GetControlDevice (port : Int)
  | SetRawState (port : Int) (state : List Nat)
  | GetProgramCounter (cpuType : CpuType)
  deriving DecidableEq, Repr

/-- The member functions of the emulator the handlers call, over an emulator state `E`.  Each
returns its result and the emulator state after the call; a pointer result is the flag
"non-null". -/
structure Emulator (E : Type) where
  codes : ConsoleTypeCodes
  IsRunning : E → Bool × E
  Stop : E → Unit × E
  LoadRom : Str → E → Bool × E
  GetConsoleType : E → Int × E
  GetConsoleUnsafe : E → Bool × E
  RunFrame : E → Unit × E
  GetFrameCount : E → Nat × E
  GetDebugger : E → Bool × E
  GetMemoryValue : MemoryType → Nat → E → Nat × E
  GetMemoryValues : MemoryType → Nat → Nat → E → List Nat × E
  SetMemoryValue : MemoryType → Nat → Nat → E → Unit × E
  GetControlManager : E → Bool × E
  GetControlDevice : Int → E → Bool × E
  SetRawState : Int → List Nat → E → Unit × E
  GetProgramCounter : CpuType → E → Nat × E

/-- The state the core thread works on: `_coreState`, the emulator behind `_emu`, and the log of
the calls made on it (oldest first). -/
structure Core (E : Type) where
  coreState : McpCoreState := {}
  emu : E
  calls : List EmuCall := []

/-- Make one call on the emulator: run the transition and append the call to the log. -/
def Core.call {E α : Type} (s : Core E) (ev : EmuCall) (op : E → α × E) : α × Core E :=
  ((op s.emu).1, { s with emu := (op s.emu).2, calls := s.calls ++ [ev] })

/-- `GetCpuMemoryType` (file-local in `McpServer.cpp`). -/
def GetCpuMemoryType (codes : ConsoleTypeCodes) (ct : Int) : MemoryType :=
  if ct = codes.Nes then MemoryType.NesMemory
  else if ct = codes.Snes then MemoryType.SnesMemory
  else if ct = codes.Gameboy then MemoryType.GameboyMemory
  else if ct = codes.PcEngine then MemoryType.PceMemory
  else if ct = codes.Sms then MemoryType.SmsMemory
  else if ct = codes.Gba then MemoryType.GbaMemory
  else MemoryType.NesMemory

/-- `GetMainCpuType` (file-local in `McpServer.cpp`). -/
def GetMainCpuType (codes : ConsoleTypeCodes) (ct : Int) : CpuType :=
  if ct = codes.Nes then CpuType.Nes
  else if ct = codes.Snes then CpuType.Snes
  else if ct = codes.Gameboy then CpuType.Gameboy
  else if ct = codes.PcEngine then CpuType.Pce
  else if ct = codes.Gba then CpuType.Gba
  else CpuType.Nes

/-! ## Command implementations (core thread) -/

/-- The path echo loop of `ExecLoadRom` (it tests the backslash first). -/
def escapePath : Str → Str
  | [] => []
  | c :: cs =>
    if c = '\\' then '\\' :: '\\' :: escapePath cs
    else if c = '"' then '\\' :: '"' :: escapePath cs
    else c :: escapePath cs

/-- `McpServer::ExecLoadRom`. -/
def ExecLoadRom {E : Type} (em : Emulator E) (cmd : McpTypedCommand) (s : Core E) :
    Str × Core E :=
  if cmd.path.isEmpty then (ErrorResponse cmd.id "missing path".toList, s)
  else
    let running := s.call EmuCall.IsRunning em.IsRunning
    let s := if running.1 then (running.2.call EmuCall.Stop em.Stop).2 else running.2
    let loaded := s.call (EmuCall.LoadRom cmd.path) (em.LoadRom cmd.path)
    let s := loaded.2
    if !loaded.1 then
      (ErrorResponse cmd.id "failed to load ROM".toList,
        { s with coreState := { romLoaded := false, consoleType := -1, externalControl := false } })
    else
      let ct := s.call EmuCall.GetConsoleType em.GetConsoleType
      let s := ct.2
      let s := { s with coreState := { consoleType := ct.1, romLoaded := true,
                                       externalControl := true } }
      let result := "\x7b\"console_type\":".toList ++ to_string ct.1 ++ ",\"path\":\"".toList
        ++ escapePath cmd.path ++ "\",\"mode\":\"external_controlled\"\x7d".toList
      (OkResponse cmd.id result, s)

/-- The frame loop of `ExecStepFrame`: `count` calls of `console->RunFrame()`. -/
def runFrames {E : Type} (em : Emulator E) : Nat → Core E → Core E
  | 0, s => s
  | n + 1, s => runFrames em n (s.call EmuCall.RunFrame em.RunFrame).2

/-- `McpServer::ExecStepFrame`. -/
def ExecStepFrame {E : Type} (em : Emulator E) (cmd : McpTypedCommand) (s : Core E) :
    Str × Core E :=
  if !s.coreState.romLoaded then (ErrorResponse cmd.id "no ROM loaded".toList, s)
  else
    let count := cmd.count
    let count := if count < 1 then 1 else count
    let count := if count > 3600 then 3600 else count
    let console := s.call EmuCall.GetConsoleUnsafe em.GetConsoleUnsafe
    let s := console.2
    if !console.1 then (ErrorResponse cmd.id "no active console".toList, s)
    else
      let s := runFrames em count.toNat s
      let frameCount := s.call EmuCall.GetFrameCount em.GetFrameCount
      let s := frameCount.2
      let result := "\x7b\"framesExecuted\":".toList ++ to_string count
        ++ ",\"frameCount\":".toList ++ to_string ((frameCount.1 % 4294967296 : Nat) : Int)
        ++ "\x7d".toList
      (OkResponse cmd.id result, s)

/-- The `data` loop of `ExecReadMemory`: the bytes of `buf`, separated by commas. -/
def joinBytes : List Nat → Str
  | [] => []
  | [b] => to_string (b : Int)
  | b :: c :: rest => to_string (b : Int) ++ ",".toList ++ joinBytes (c :: rest)

/-- The buffer `std::vector<uint8_t> buf(size)` after `GetMemoryValues` wrote `written` into it:
`size` bytes, zero where nothing was written. -/
def fillBuffer (size : Nat) (written : List Nat) : List Nat :=
  (List.range size).map (fun i => written.getD i 0 % 256)

/-- `McpServer::ExecReadMemory`. -/
def ExecReadMemory {E : Type} (em : Emulator E) (cmd : McpTypedCommand) (s : Core E) :
    Str × Core E :=
  if !s.coreState.romLoaded then (ErrorResponse cmd.id "no ROM loaded".toList, s)
  else if cmd.address < 0 then (ErrorResponse cmd.id "invalid address".toList, s)
  else
    let memType := GetCpuMemoryType em.codes s.coreState.consoleType
    let dbg := s.call EmuCall.GetDebugger em.GetDebugger
    let s := dbg.2
    if !dbg.1 then (ErrorResponse cmd.id "debugger not available".toList, s)
    else
      let size := cmd.count
      let size := if size < 1 then 1 else size
      let size := if size > 256 then 256 else size
      let first := (cmd.address % 4294967296).toNat
      if size = 1 then
        let val := s.call (EmuCall.GetMemoryValue memType first) (em.GetMemoryValue memType first)
        (OkResponse cmd.id ("\x7b\"value\":".toList ++ to_string ((val.1 % 256 : Nat) : Int)
          ++ "\x7d".toList), val.2)
      else
        let last := ((cmd.address + size - 1) % 4294967296).toNat
        let values := s.call (EmuCall.GetMemoryValues memType first last)
          (em.GetMemoryValues memType first last)
        let buf := fillBuffer size.toNat values.1
        let result := "\x7b\"address\":".toList ++ to_string cmd.address ++ ",\"size\":".toList
          ++ to_string size ++ ",\"data\":[".toList ++ joinBytes buf ++ "]\x7d".toList
        (OkResponse cmd.id result, values.2)

/-- `McpServer::ExecWriteMemory`. -/
def ExecWriteMemory {E : Type} (em : Emulator E) (cmd : McpTypedCommand) (s : Core E) :
    Str × Core E :=
  if !s.coreState.romLoaded then (ErrorResponse cmd.id "no ROM loaded".toList, s)
  else if cmd.address < 0 then (ErrorResponse cmd.id "invalid address".toList, s)
  else if cmd.value < 0 ∨ cmd.value > 255 then
    (ErrorResponse cmd.id "value must be 0-255".toList, s)
  else
    let memType := GetCpuMemoryType em.codes s.coreState.consoleType
    let dbg := s.call EmuCall.GetDebugger em.GetDebugger
    let s := dbg.2
    if !dbg.1 then (ErrorResponse cmd.id "debugger not available".toList, s)
    else
      let address := (cmd.address % 4294967296).toNat
      let value := (cmd.value % 256).toNat
      let s := (s.call (EmuCall.SetMemoryValue memType address value)
        (em.SetMemoryValue memType address value)).2
      (OkResponse cmd.id ("\x7b\"address\":".toList ++ to_string cmd.address
        ++ ",\"value\":".toList ++ to_string cmd.value ++ "\x7d".toList), s)

/-- `McpServer::ExecSetInput`. -/
def ExecSetInput {E : Type} (em : Emulator E) (cmd : McpTypedCommand) (s : Core E) :
    Str × Core E :=
  if !s.coreState.romLoaded then (ErrorResponse cmd.id "no ROM loaded".toList, s)
  else
    let console := s.call EmuCall.GetConsoleUnsafe em.GetConsoleUnsafe
    let s := console.2
    if !console.1 then (ErrorResponse cmd.id "no active console".toList, s)
    else
      let ctrlMgr := s.call EmuCall.GetControlManager em.GetControlManager
      let s := ctrlMgr.2
      if !ctrlMgr.1 then (ErrorResponse cmd.id "no control manager".toList, s)
      else
        let controller := s.call (EmuCall.GetControlDevice cmd.port) (em.GetControlDevice cmd.port)
        let s := controller.2
        if !controller.1 then
          (ErrorResponse cmd.id ("no controller on port ".toList ++ to_string cmd.port), s)
        else
          let state := [(cmd.buttons % 256).toNat]
          let s := (s.call (EmuCall.SetRawState cmd.port state) (em.SetRawState cmd.port state)).2
          (OkResponse cmd.id ("\x7b\"port\":".toList ++ to_string cmd.port
            ++ ",\"buttons\":".toList ++ to_string cmd.buttons ++ "\x7d".toList), s)

/-- `McpServer::ExecGetState`. -/
def ExecGetState {E : Type} (em : Emulator E) (cmd : McpTypedCommand) (s : Core E) :
    Str × Core E :=
  let result := "\x7b\"rom_loaded\":".toList
    ++ (if s.coreState.romLoaded then "true".toList else "false".toList)
    ++ ",\"console_type\":".toList ++ to_string s.coreState.consoleType
    ++ ",\"mode\":\"".toList
    ++ (if s.coreState.externalControl then "external_controlled".toList
        else "free_running".toList)
    ++ "\"".toList
  if s.coreState.romLoaded then
    let frameCount := s.call EmuCall.GetFrameCount em.GetFrameCount
    let s := frameCount.2
    let result := result ++ ",\"frame_count\":".toList
      ++ to_string ((frameCount.1 % 4294967296 : Nat) : Int)
    let dbg := s.call EmuCall.GetDebugger em.GetDebugger
    let s := dbg.2
    if dbg.1 then
      let cpuType := GetMainCpuType em.codes s.coreState.consoleType
      let pc := s.call (EmuCall.GetProgramCounter cpuType) (em.GetProgramCounter cpuType)
      let s := pc.2
      let result := result ++ ",\"pc\":".toList ++ to_string ((pc.1 % 4294967296 : Nat) : Int)
      (OkResponse cmd.id (result ++ "\x7d".toList), s)
    else (OkResponse cmd.id (result ++ "\x7d".toList), s)
  else (OkResponse cmd.id (result ++ "\x7d".toList), s)

/-- `McpServer::ExecuteCommand`: the command router.  The `default` branch of the source is
unreachable for a value of the enumeration. -/
def ExecuteCommand {E : Type} (em : Emulator E) (cmd : McpTypedCommand) (s : Core E) :
    Str × Core E :=
  match cmd.type with
  | McpCommandType.LoadRom => ExecLoadRom em cmd s
  | McpCommandType.StepFrame => ExecStepFrame em cmd s
  | McpCommandType.ReadMemory => ExecReadMemory em cmd s
  | McpCommandType.WriteMemory => ExecWriteMemory em cmd s
  | McpCommandType.SetInput => ExecSetInput em cmd s
  | McpCommandType.GetState => ExecGetState em cmd s

/-- The emulator state in which `ExecLoadRom` calls `LoadRom`: after `IsRunning` and, if that
answered true, `Stop`. -/
def emuBeforeLoad {E : Type} (em : Emulator E) (e : E) : E :=
  if (em.IsRunning e).1 then (em.Stop (em.IsRunning e).2).2 else (em.IsRunning e).2

/-- Execute a list of commands one after the other from `s`; the core state at the end. -/
def runCommands {E : Type} (em : Emulator E) (cmds : List McpTypedCommand) (s : Core E) :
    Core E :=
  cmds.foldl (fun t c => (ExecuteCommand em c t).2) s

/-! ## Command decoding (TCP thread) -/

/-- `McpServer::ParseCommand`; `none` is the null pointer. -/
def ParseCommand (json : Str) : Option McpTypedCommand :=
  let method := ExtractString json "method".toList
  if method.isEmpty then none
  else
    let id := ExtractInt json "id".toList 0
    if method = "load_rom".toList then
      some { type := McpCommandType.LoadRom, id := id,
             path := ExtractString json "path".toList }
    else if method = "step_frame".toList then
      some { type := McpCommandType.StepFrame, id := id,
             count := ExtractInt json "count".toList 1 }
    else if method = "read_memory".toList then
      some { type := McpCommandType.ReadMemory, id := id,
             address := ExtractInt json "address".toList (-1),
             count := ExtractInt json "size".toList 1 }
    else if method = "write_memory".toList then
      some { type := McpCommandType.WriteMemory, id := id,
             address := ExtractInt json "address".toList (-1),
             value := ExtractInt json "value".toList (-1) }
    else if method = "set_input".toList then
      some { type := McpCommandType.SetInput, id := id,
             port := ExtractInt json "port".toList 0,
             buttons := ExtractInt json "buttons".toList 0 }
    else if method = "get_state".toList then
      some { type := McpCommandType.GetState, id := id }
    else none

/-- The six command names of the protocol with the kind each maps to, as the specification
lists them (section 4.2 with section 6); `ParseCommand` is compared with this table. -/
def methodTable : List (Str × McpCommandType) :=
  [("load_rom".toList, McpCommandType.LoadRom),
   ("step_frame".toList, McpCommandType.StepFrame),
   ("read_memory".toList, McpCommandType.ReadMemory),
   ("write_memory".toList, McpCommandType.WriteMemory),
   ("set_input".toList, McpCommandType.SetInput),
   ("get_state".toList, McpCommandType.GetState)]

/-- The kind the specification assigns to a method name: the table entry, or no kind. -/
def kindOfMethod (method : Str) : Option McpCommandType := methodTable.lookup method

/-! ## The command queue -/

/-- The part of `McpServer` the two threads share, with the core-thread state: the queue, and the
command objects already popped from it as their owners see them (`published`, oldest first). -/
structure Server (E : Type) where
  core : Core E
  commandQueue : List McpTypedCommand := []
  published : List McpTypedCommand := []

/-- The loop of `DrainCommandQueue` with no concurrent enqueue: pop the front command, execute
it, publish its response, until the queue is empty. -/
def drainLoop {E : Type} (em : Emulator E) :
    List McpTypedCommand → Core E → List McpTypedCommand →
      List McpTypedCommand × Core E × List McpTypedCommand
  | [], core, published => ([], core, published)
  | cmd :: queue, core, published =>
    let response := ExecuteCommand em cmd core
    drainLoop em queue response.2 (published ++ [cmd.SetResponse response.1])

/-- `McpServer::DrainCommandQueue`. -/
def DrainCommandQueue {E : Type} (em : Emulator E) (srv : Server E) : Server E :=
  let r := drainLoop em srv.commandQueue srv.core srv.published
  { core := r.2.1, commandQueue := r.1, published := r.2.2 }

/-- The command objects a drain of `queue` from `core` publishes, in order: each command with
the reply of its own execution in the state its predecessors left. -/
def publishedBy {E : Type} (em : Emulator E) : List McpTypedCommand → Core E →
    List McpTypedCommand
  | [], _ => []
  | cmd :: queue, core =>
    cmd.SetResponse (ExecuteCommand em cmd core).1
      :: publishedBy em queue (ExecuteCommand em cmd core).2

/-! ## A concrete emulator for evaluation -/

/-- The numbering of `ConsoleType` in Mesen (`Snes, Gameboy, Nes, PcEngine, Sms, Gba`). -/
def mesenCodes : ConsoleTypeCodes :=
  { Snes := 0, Gameboy := 1, Nes := 2, PcEngine := 3, Sms := 4, Gba := 5 }

/-- A small emulator: its state is the frame counter; it loads a ROM exactly when `loadable`,
always has a console, a debugger and a controller on port 0, and reads the byte `a % 256` at
address `a`. -/
def toyEmu (loadable : Bool) : Emulator Nat :=
  { codes := mesenCodes
    IsRunning := fun e => (false, e)
    Stop := fun e => ((), e)
    LoadRom := fun _ e => (loadable, e)
    GetConsoleType := fun e => (2, e)
    GetConsoleUnsafe := fun e => (true, e)
    RunFrame := fun e => ((), e + 1)
    GetFrameCount := fun e => (e, e)
    GetDebugger := fun e => (true, e)
    GetMemoryValue := fun _ a e => (a % 256, e)
    GetMemoryValues := fun _ a b e => ((List.range (b + 1 - a)).map (fun i => (a + i) % 256), e)
    SetMemoryValue := fun _ _ _ e => ((), e)
    GetControlManager := fun e => (true, e)
    GetControlDevice := fun port e => (decide (port = 0), e)
    SetRawState := fun _ _ e => ((), e)
    GetProgramCounter := fun _ e => (0, e) }

/-- The core state at start-up over the toy emulator: nothing loaded, no call made. -/
def freshCore : Core Nat := { emu := 0 }

/-- A core state with a NES ROM loaded over the toy emulator. -/
def loadedCore : Core Nat :=
  { emu := 0, coreState := { romLoaded := true, consoleType := 2, externalControl := true } }

/-- A `load_rom` command for `game.rom`, id 2. -/
def loadGame : McpTypedCommand :=
  { type := McpCommandType.LoadRom, id := 2, path := "game.rom".toList }

/-- A `write_memory` command, address 10, with the given value, id 3. -/
def writeAt10 (value : Int) : McpTypedCommand :=
  { type := McpCommandType.WriteMemory, id := 3, address := 10, value := value }

/-- A `step_frame` command with the given count, id 5. -/
def stepBy (count : Int) : McpTypedCommand :=
  { type := McpCommandType.StepFrame, id := 5, count := count }

/-- A `load_rom` command with an empty path, id 2. -/
def loadNothing : McpTypedCommand :=
  { type := McpCommandType.LoadRom, id := 2 }

/-- A `get_state` command, id 4. -/
def getState4 : McpTypedCommand :=
  { type := McpCommandType.GetState, id := 4 }

/-- The frame `\x7b"method":"get_state","id":n\x7d`. -/
def getStateFrame (n : Int) : Str :=
  "\x7b\"method\":\"get_state\",\"id\":".toList ++ to_string n ++ "\x7d".toList

/-- A `read_memory` command at address 16 with the given size, id 7. -/
def readAt16 (size : Int) : McpTypedCommand :=
  { type := McpCommandType.ReadMemory, id := 7, address := 16, count := size }

/-- The reply to a decoded frame, or `none` when decoding fails. -/
def replyTo {E : Type} (em : Emulator E) (json : Str) (s : Core E) : Option Str :=
  (ParseCommand json).map (fun cmd => (ExecuteCommand em cmd s).1)


/-! ## The response channel and the connection handler (TCP thread) -/

/-- The reply `WaitForResponse` makes up when the wait ends without a response. -/
def timeoutReply : Str := "\x7b\"ok\":false,\"error\":\"timeout\",\"id\":0\x7d".toList

/-- `McpTypedCommand::WaitForResponse`, on the command object as it is when `cv.wait_for`
returns: `wait_for` answers `responseReady` as it is then (true as soon as a response was
published, false when the 30 seconds passed without one). -/
def McpTypedCommand.WaitForResponse (cmd : McpTypedCommand) : Str :=
  if !cmd.responseReady then timeoutReply else cmd.response

/-- `buffer += chunk` after `chunk[received] = '\0'`: the array is appended as a C string, so
what is appended is the received bytes before the first NUL byte. -/
def cstr (chunk : Str) : Str := chunk.takeWhile (fun c => c != Char.ofNat 0)

/-- The line loop of `HandleClient`, `while((nlPos = buffer.find('\n')) != npos)`, with the
work done on a line (from `ParseCommand` to `Send`) as the parameter `handle`.  Every turn
removes at least the newline from the buffer, so `buffer.length + 1` turns of fuel are never
used up. -/
def processLines {σ : Type} (handle : Str → σ → σ) : Nat → Str → σ → Str × σ
  | 0, buffer, st => (buffer, st)
  | fuel + 1, buffer, st =>
    match findChar buffer '\n' 0 with
    | none => (buffer, st)
    | some nlPos =>
      let line := buffer.take nlPos
      let buffer := buffer.drop (nlPos + 1)
      let line := if !line.isEmpty && line.getLast? == some '\r' then line.dropLast else line
      if line.isEmpty then processLines handle fuel buffer st
      else processLines handle fuel buffer (handle line st)

/-- The receive loop of `McpServer::HandleClient` over the chunks `Recv` delivers (the server
not being stopped meanwhile): a `Recv` of no bytes ends the loop, any other chunk is appended
to the buffer and the complete lines are processed.  The result is the buffer left over and
the state after the last line. -/
def HandleClient {σ : Type} (handle : Str → σ → σ) : List Str → Str → σ → Str × σ
  | [], buffer, st => (buffer, st)
  | chunk :: chunks, buffer, st =>
    if chunk.isEmpty then (buffer, st)
    else
      let buffer := buffer ++ cstr chunk
      let r := processLines handle (buffer.length + 1) buffer st
      HandleClient handle chunks r.1 r.2

/-- What one connection has done so far: the server it shares with the core thread, the
messages passed to `Send` and the lines passed to `ParseCommand` (both oldest first). -/
structure Session (E : Type) where
  server : Server E
  sent : List Str := []
  frames : List Str := []

/-- The body of the line loop of `HandleClient` for one non-empty line.  `drained` says how the
core thread is scheduled while the TCP thread waits: true when `DrainCommandQueue` runs before
the 30 seconds are over (the command, pushed last, is then the last object published), false
when it does not and the wait times out. -/
def handleLine {E : Type} (em : Emulator E) (drained : Bool) (line : Str) (ss : Session E) :
    Session E :=
  let ss := { ss with frames := ss.frames ++ [line] }
  match ParseCommand line with
  | none =>
    { ss with sent := ss.sent ++ [ErrorResponse 0 "invalid command".toList ++ "\n".toList] }
  | some cmd =>
    let server := { ss.server with commandQueue := ss.server.commandQueue ++ [cmd] }
    let server := if drained then DrainCommandQueue em server else server
    let obj := if drained then server.published.getLast?.getD cmd else cmd
    let response := obj.WaitForResponse
    { ss with server := server, sent := ss.sent ++ [response ++ "\n".toList] }

/-- The loop of `DrainCommandQueue` with the TCP thread enqueuing meanwhile: the queue is
locked only to test and pop it, so between two pops the commands `arrivals.head` that were
pushed while the popped command executed are in the queue.  When the queue is found empty
the call returns; `arrivals` running out means nothing more is enqueued during this call. -/
def drainWith {E : Type} (em : Emulator E) :
    List (List McpTypedCommand) → List McpTypedCommand → Core E → List McpTypedCommand →
      List McpTypedCommand × Core E × List McpTypedCommand
  | _, [], core, published => ([], core, published)
  | [], cmd :: queue, core, published => drainLoop em (cmd :: queue) core published
  | arrived :: arrivals, cmd :: queue, core, published =>
    let response := ExecuteCommand em cmd core
    drainWith em arrivals (queue ++ arrived) response.2
      (published ++ [cmd.SetResponse response.1])

/-- The commands enqueued during one call of `DrainCommandQueue` that the call itself gets to
see, read off the schedule alone: with `queued` commands in the queue, the enqueues
`arrivals.head` made while the next command executes join the queue, and so on until the
queue is counted empty. -/
def absorbed : List (List McpTypedCommand) → Nat → List McpTypedCommand
  | _, 0 => []
  | [], _ + 1 => []
  | arrived :: arrivals, queued + 1 => arrived ++ absorbed arrivals (queued + arrived.length)

/-- The complete lines of a text (each without its newline) and its unterminated tail, read
character by character; `cur` is the line begun so far. -/
def splitLines : Str → Str → List Str × Str
  | [], cur => ([], cur)
  | c :: cs, cur =>
    if c = '\n' then (cur :: (splitLines cs []).1, (splitLines cs []).2)
    else splitLines cs (cur ++ [c])

/-- A line without one trailing carriage return. -/
def stripCR (line : Str) : Str :=
  if line.getLast? = some '\r' then line.dropLast else line

/-- The frames of a list of complete lines: each line stripped of one carriage return, the
empty ones left out. -/
def framesOf (lines : List Str) : List Str :=
  (lines.map stripCR).filter (fun l => !l.isEmpty)

/-- The frame log as a line handler: it records the lines it is given. -/
def logFrame (line : Str) (log : List Str) : List Str := log ++ [line]

/-- The `write_memory` command a frame with no other field decodes to. -/
def bareWrite : McpTypedCommand :=
  { type := McpCommandType.WriteMemory, address := -1, value := -1 }

/-- A `get_state` command that nothing has answered yet, id 7. -/
def pendingGetState : McpTypedCommand :=
  { type := McpCommandType.GetState, id := 7 }

/-- The session over the toy emulator at start-up. -/
def freshSession : Session Nat := { server := { core := freshCore } }

/-! ## Decimal text -/

theorem wrap32_of_inInt32 (x : Int) (h : inInt32 x) : wrap32 x = x := by
  unfold inInt32 at h
  unfold wrap32
  omega

theorem wrap32_step (q r : Int) : wrap32 (wrap32 q * 10 + r) = wrap32 (q * 10 + r) := by
  unfold wrap32
  omega

theorem digitChar_facts : ∀ k, k < 10 →
    isDigit (Nat.digitChar k) = true ∧ ((Nat.digitChar k).toNat : Int) - 48 = k := by
  decide

theorem toDigitsCore_append (f n : Nat) (acc : Str) :
    Nat.toDigitsCore 10 f n acc = Nat.toDigitsCore 10 f n [] ++ acc := by
  induction f generalizing n acc with
  | zero => simp [Nat.toDigitsCore]
  | succ f ih =>
    simp only [Nat.toDigitsCore]
    split_ifs
    · simp
    · rw [ih (n / 10) (Nat.digitChar (n % 10) :: acc), ih (n / 10) [Nat.digitChar (n % 10)]]
      simp

/-- The digits printed for `n`: all decimal digits, at least one, and the digit loop reads
them back as `n` reduced to 32 bits. -/
theorem toDigitsCore_facts (f n : Nat) (h : n < f) :
    (∀ c ∈ Nat.toDigitsCore 10 f n [], isDigit c = true)
    ∧ Nat.toDigitsCore 10 f n [] ≠ []
    ∧ foldDigits (Nat.toDigitsCore 10 f n []) 0 = wrap32 n := by
  induction f generalizing n with
  | zero => omega
  | succ f ih =>
    have hd := digitChar_facts (n % 10) (Nat.mod_lt _ (by decide))
    simp only [Nat.toDigitsCore]
    split_ifs with h0
    · have hn : n % 10 = n := by omega
      refine ⟨by simpa using hd.1, by simp, ?_⟩
      simp only [foldDigits, List.foldl_cons, List.foldl_nil]
      rw [hd.2, hn]
      simp
    · rw [toDigitsCore_append]
      have hlt : n / 10 < f := by omega
      obtain ⟨h1, h2, h3⟩ := ih (n / 10) hlt
      refine ⟨?_, by simp, ?_⟩
      · intro c hc
        rcases List.mem_append.mp hc with hc | hc
        · exact h1 c hc
        · rw [List.mem_singleton.mp hc]
          exact hd.1
      · simp only [foldDigits] at h3
        simp only [foldDigits, List.foldl_append, List.foldl_cons, List.foldl_nil]
        rw [h3, hd.2, wrap32_step]
        congr 1
        omega

theorem toDigits_isDigit (n : Nat) : ∀ c ∈ Nat.toDigits 10 n, isDigit c = true :=
  (toDigitsCore_facts (n + 1) n (Nat.lt_succ_self n)).1

theorem toDigits_ne_nil (n : Nat) : Nat.toDigits 10 n ≠ [] :=
  (toDigitsCore_facts (n + 1) n (Nat.lt_succ_self n)).2.1

theorem foldDigits_toDigits (n : Nat) : foldDigits (Nat.toDigits 10 n) 0 = wrap32 n :=
  (toDigitsCore_facts (n + 1) n (Nat.lt_succ_self n)).2.2

/-- The digit loop on a run of digits followed by something that is not a digit. -/
theorem readDigits_append (l rest : Str) (val : Int) (found : Bool)
    (hl : ∀ c ∈ l, isDigit c = true) (hrest : ∀ c, rest.head? = some c → isDigit c = false) :
    readDigits (l ++ rest) val found = (foldDigits l val, found || !l.isEmpty) := by
  induction l generalizing val found with
  | nil =>
    cases rest with
    | nil => simp [readDigits, foldDigits]
    | cons c cs =>
      have := hrest c rfl
      simp [readDigits, foldDigits, this]
  | cons c l ih =>
    have hc := hl c (List.mem_cons_self _ _)
    have := ih (wrap32 (val * 10 + ((c.toNat : Int) - 48))) true
      (fun d hd => hl d (List.mem_cons_of_mem _ hd))
    simp [readDigits, hc, this, foldDigits]

/-- `to_string` of a natural number is its run of decimal digits. -/
theorem to_string_natCast (n : Nat) : to_string (n : Int) = Nat.toDigits 10 n := by
  simp [to_string]

/-! ## The extractors on a located value -/

theorem ExtractInt_eq (json key : Str) (d : Int) :
    ExtractInt json key d
      = match valueText json key with
        | none => d
        | some r => intOfText r d := by
  unfold ExtractInt valueText
  cases find json (quoted key) with
  | none => rfl
  | some pos =>
    simp only
    cases findChar json ':' (pos + (quoted key).length) with
    | none => rfl
    | some pos2 =>
      simp only [intOfText]
      split_ifs <;> simp_all

theorem ExtractString_eq (json key : Str) :
    ExtractString json key
      = match valueText json key with
        | none => []
        | some r =>
          match r with
          | [] => []
          | c :: body => if c = '"' then readString body else [] := by
  unfold ExtractString valueText
  cases find json (quoted key) with
  | none => rfl
  | some pos =>
    simp only
    cases findChar json ':' (pos + (quoted key).length) with
    | none => rfl
    | some pos2 => rfl

theorem indexOf?_colon (mid t : Str) (ch : Char) (h : ch ∉ mid) :
    (mid ++ ch :: t).indexOf? ch = some mid.length := by
  induction mid with
  | nil => simp [List.indexOf?, List.findIdx?_cons]
  | cons c mid ih =>
    have hc : c ≠ ch := fun e => h (e ▸ List.mem_cons_self _ _)
    have hm : ch ∉ mid := fun e => h (List.mem_cons_of_mem _ e)
    have := ih hm
    simp only [List.indexOf?] at this
    simp [List.indexOf?, List.findIdx?_cons, hc, this]

theorem dropWhile_blank_append (ws t : Str) (hws : ∀ c ∈ ws, isBlank c = true)
    (ht : ∀ c, t.head? = some c → isBlank c = false) :
    (ws ++ t).dropWhile isBlank = t := by
  induction ws with
  | nil =>
    cases t with
    | nil => rfl
    | cons c cs => simp [List.dropWhile, ht c rfl]
  | cons c ws ih =>
    have hc := hws c (List.mem_cons_self _ _)
    simp [List.dropWhile, hc, ih (fun d hd => hws d (List.mem_cons_of_mem _ hd))]

/-- The located text of a key whose first occurrence is followed by colon-free text, a colon and
blanks. -/
theorem valueText_located (json key pre mid ws t : Str)
    (hjson : json = pre ++ quoted key ++ mid ++ ':' :: ws ++ t)
    (hfirst : find json (quoted key) = some pre.length)
    (hmid : ':' ∉ mid) (hws : ∀ c ∈ ws, isBlank c = true)
    (ht : ∀ c, t.head? = some c → isBlank c = false) :
    valueText json key = some t := by
  have hdrop : json.drop (pre.length + (quoted key).length) = mid ++ ':' :: (ws ++ t) := by
    rw [hjson, ← List.length_append]
    simp only [List.append_assoc, List.cons_append]
    rw [← List.append_assoc, List.drop_left]
  have hcolon : findChar json ':' (pre.length + (quoted key).length)
      = some (pre.length + (quoted key).length + mid.length) := by
    simp only [findChar, hdrop, indexOf?_colon mid (ws ++ t) ':' hmid]
  have hdrop2 : json.drop (pre.length + (quoted key).length + mid.length + 1) = ws ++ t := by
    rw [Nat.add_assoc, ← List.drop_drop, hdrop]
    rw [show mid ++ ':' :: (ws ++ t) = (mid ++ [':']) ++ (ws ++ t) by simp]
    rw [show mid.length + 1 = (mid ++ [':']).length by simp, List.drop_left]
  simp only [valueText, hfirst, hcolon, hdrop2, dropWhile_blank_append ws t hws ht]

/-- The number read at the start of `to_string n ++ rest` is `n`, for `n` in the range of a
32-bit `int` and `rest` not starting with a digit. -/
theorem intOfText_to_string (n d : Int) (rest : Str) (hn : inInt32 n)
    (hrest : ∀ c, rest.head? = some c → isDigit c = false) :
    intOfText (to_string n ++ rest) d = n := by
  unfold inInt32 at hn
  by_cases hneg : n < 0
  · have hts : to_string n = '-' :: Nat.toDigits 10 n.natAbs := by simp [to_string, hneg]
    have hr := readDigits_append (Nat.toDigits 10 n.natAbs) rest 0 false
      (toDigits_isDigit _) hrest
    have hne : (Nat.toDigits 10 n.natAbs).isEmpty = false := by
      cases h : Nat.toDigits 10 n.natAbs with
      | nil => exact absurd h (toDigits_ne_nil _)
      | cons a l => rfl
    simp only [intOfText, hts, List.cons_append, List.head?_cons, List.drop_succ_cons,
      List.drop_zero, hr, hne, foldDigits_toDigits]
    simp only [Bool.not_false, Bool.or_true, Bool.not_true, if_true, Bool.false_eq_true,
      if_false]
    unfold wrap32
    omega
  · have hts : to_string n = Nat.toDigits 10 n.toNat := by simp [to_string, hneg]
    have hr := readDigits_append (Nat.toDigits 10 n.toNat) rest 0 false
      (toDigits_isDigit _) hrest
    have hne : (Nat.toDigits 10 n.toNat).isEmpty = false := by
      cases h : Nat.toDigits 10 n.toNat with
      | nil => exact absurd h (toDigits_ne_nil _)
      | cons a l => rfl
    have hhead : (Nat.toDigits 10 n.toNat ++ rest).head? ≠ some '-' := by
      cases h : Nat.toDigits 10 n.toNat with
      | nil => exact absurd h (toDigits_ne_nil _)
      | cons a l =>
        have ha : isDigit a = true := toDigits_isDigit n.toNat a (h ▸ List.mem_cons_self _ _)
        intro e
        simp only [List.cons_append, List.head?_cons, Option.some.injEq] at e
        rw [e] at ha
        exact absurd ha (by decide)
    simp only [intOfText, hts, hhead, if_false, hr, hne, foldDigits_toDigits]
    simp only [Bool.not_false, Bool.or_true, Bool.not_true, Bool.false_eq_true, if_false]
    unfold wrap32
    omega

/-- The text of an `int` does not start with a blank. -/
theorem to_string_head_not_blank (n : Int) (rest : Str) :
    ∀ c, (to_string n ++ rest).head? = some c → isBlank c = false := by
  intro c hc
  by_cases hneg : n < 0
  · have hts : to_string n = '-' :: Nat.toDigits 10 n.natAbs := by simp [to_string, hneg]
    rw [hts] at hc
    simp only [List.cons_append, List.head?_cons, Option.some.injEq] at hc
    rw [← hc]
    decide
  · have hts : to_string n = Nat.toDigits 10 n.toNat := by simp [to_string, hneg]
    rw [hts] at hc
    cases h : Nat.toDigits 10 n.toNat with
    | nil => exact absurd h (toDigits_ne_nil _)
    | cons a l =>
      have ha : isDigit a = true := toDigits_isDigit n.toNat a (h ▸ List.mem_cons_self _ _)
      rw [h] at hc
      simp only [List.cons_append, List.head?_cons, Option.some.injEq] at hc
      rw [← hc]
      revert ha
      simp only [isDigit, isBlank]
      intro ha
      have h1 : 48 ≤ a.toNat := by
        simp only [Bool.and_eq_true, decide_eq_true_eq] at ha
        exact ha.1
      have e1 : a ≠ ' ' := by
        rintro rfl
        exact absurd h1 (by decide)
      have e2 : a ≠ '\t' := by
        rintro rfl
        exact absurd h1 (by decide)
      simp [e1, e2]

/-- `ExtractInt` reads back a decimal integer: when the first occurrence of the quoted key is
followed by colon-free text, a colon, blanks, the text of `n` and then no digit. -/
theorem ExtractInt_decimal (json key pre mid ws rest : Str) (n d : Int)
    (hjson : json = pre ++ quoted key ++ mid ++ ':' :: ws ++ (to_string n ++ rest))
    (hfirst : find json (quoted key) = some pre.length)
    (hmid : ':' ∉ mid) (hws : ∀ c ∈ ws, isBlank c = true) (hn : inInt32 n)
    (hrest : ∀ c, rest.head? = some c → isDigit c = false) :
    ExtractInt json key d = n := by
  rw [ExtractInt_eq, valueText_located json key pre mid ws (to_string n ++ rest) hjson hfirst
    hmid hws (to_string_head_not_blank n rest)]
  exact intOfText_to_string n d rest hn hrest

/-! ## Reply shapes -/

/-- A successful `ExecLoadRom` leaves `romLoaded` set. -/
theorem ExecLoadRom_ok_romLoaded {E : Type} (em : Emulator E) (load : McpTypedCommand)
    (s : Core E) (r : Str) (h : (ExecLoadRom em load s).1 = OkResponse load.id r) :
    (ExecLoadRom em load s).2.coreState.romLoaded = true := by
  simp only [ExecLoadRom] at h ⊢
  split_ifs at h ⊢ <;> first | rfl | (simp [ErrorResponse, OkResponse] at h)

/-- C3: each of `ExecStepFrame`, `ExecReadMemory`, `ExecWriteMemory`, `ExecSetInput` answers
`no ROM loaded` (with the command's id) exactly when `romLoaded` is false, and then returns the
core state, the emulator and the call log untouched; after a successful `ExecLoadRom` none of
the four gives that answer. -/
theorem C3_no_rom_loaded_guard {E : Type} (em : Emulator E) (cmd : McpTypedCommand)
    (s : Core E) :
    ∀ H ∈ [ExecStepFrame em, ExecReadMemory em, ExecWriteMemory em, ExecSetInput em],
      ((H cmd s).1 = ErrorResponse cmd.id "no ROM loaded".toList
          ↔ s.coreState.romLoaded = false)
      ∧ (s.coreState.romLoaded = false → (H cmd s).2 = s)
      ∧ (∀ (load : McpTypedCommand) (r : Str),
          (ExecLoadRom em load s).1 = OkResponse load.id r →
          (H cmd (ExecLoadRom em load s).2).1 ≠ ErrorResponse cmd.id "no ROM loaded".toList) := by
  have key : ∀ H : McpTypedCommand → Core E → Str × Core E,
      (∀ t : Core E, ((H cmd t).1 = ErrorResponse cmd.id "no ROM loaded".toList
          ↔ t.coreState.romLoaded = false) ∧ (t.coreState.romLoaded = false → (H cmd t).2 = t)) →
      ((H cmd s).1 = ErrorResponse cmd.id "no ROM loaded".toList
          ↔ s.coreState.romLoaded = false)
      ∧ (s.coreState.romLoaded = false → (H cmd s).2 = s)
      ∧ (∀ (load : McpTypedCommand) (r : Str),
          (ExecLoadRom em load s).1 = OkResponse load.id r →
          (H cmd (ExecLoadRom em load s).2).1 ≠ ErrorResponse cmd.id "no ROM loaded".toList) := by
    intro H hH
    refine ⟨(hH s).1, (hH s).2, ?_⟩
    intro load r hok hbad
    have h1 := ((hH _).1).mp hbad
    rw [ExecLoadRom_ok_romLoaded em load s r hok] at h1
    exact Bool.noConfusion h1
  intro H hH
  simp only [List.mem_cons, List.mem_singleton, List.not_mem_nil, or_false] at hH
  rcases hH with rfl | rfl | rfl | rfl
  · apply key
    intro t
    cases hr : t.coreState.romLoaded <;>
      simp [ExecStepFrame, hr, ErrorResponse, OkResponse, escape]
    split <;> simp
  · apply key
    intro t
    cases hr : t.coreState.romLoaded <;>
      simp [ExecReadMemory, hr, ErrorResponse, OkResponse, escape]
    repeat' split
    all_goals simp
  · apply key
    intro t
    cases hr : t.coreState.romLoaded <;>
      simp [ExecWriteMemory, hr, ErrorResponse, OkResponse, escape]
    repeat' split
    all_goals simp
  · apply key
    intro t
    cases hr : t.coreState.romLoaded <;>
      simp [ExecSetInput, hr, ErrorResponse, OkResponse, escape]
    repeat' split
    all_goals simp

theorem C3_no_rom_loaded_guard_witness :
    (ExecWriteMemory (toyEmu true) (writeAt10 7) freshCore).1
        = ErrorResponse 3 "no ROM loaded".toList
    ∧ (ExecWriteMemory (toyEmu true) (writeAt10 7)
        (ExecLoadRom (toyEmu true) loadGame freshCore).2).1
        ≠ ErrorResponse 3 "no ROM loaded".toList :=
  have h := C3_no_rom_loaded_guard (toyEmu true) (writeAt10 7) freshCore
    (ExecWriteMemory (toyEmu true)) (by simp)
  ⟨h.1.mpr rfl, h.2.2 loadGame
    "\x7b\"console_type\":2,\"path\":\"game.rom\",\"mode\":\"external_controlled\"\x7d".toList
    (by decide)⟩

/-! ## `ExecStepFrame` -/

/-- The frame loop makes `n` calls of `RunFrame` and nothing else. -/
theorem runFrames_eq {E : Type} (em : Emulator E) (n : Nat) (s : Core E) :
    runFrames em n s =
      { coreState := s.coreState,
        emu := (fun e => (em.RunFrame e).2)^[n] s.emu,
        calls := s.calls ++ List.replicate n EmuCall.RunFrame } := by
  induction n generalizing s with
  | zero => simp [runFrames]
  | succ k ih =>
    rw [runFrames, ih]
    simp [Core.call, List.replicate_succ]

/-- C4: with a ROM loaded and a console present, `ExecStepFrame` calls `RunFrame` exactly
`min (max count 1) 3600` times (between one `GetConsoleUnsafe` and one `GetFrameCount`), leaves
the emulator in the state that many frames later, and reports that number as `framesExecuted`;
the number is 3600 for `count > 3600` and 1 for `count < 1`. -/
theorem C4_step_frame_clamp {E : Type} (em : Emulator E) (cmd : McpTypedCommand) (s : Core E)
    (hrom : s.coreState.romLoaded = true) (hcon : (em.GetConsoleUnsafe s.emu).1 = true) :
    (ExecStepFrame em cmd s).2.calls
        = s.calls ++ [EmuCall.GetConsoleUnsafe]
          ++ List.replicate (min (max cmd.count 1) 3600).toNat EmuCall.RunFrame
          ++ [EmuCall.GetFrameCount]
    ∧ (ExecStepFrame em cmd s).2.emu
        = (em.GetFrameCount ((fun e => (em.RunFrame e).2)^[(min (max cmd.count 1) 3600).toNat]
            (em.GetConsoleUnsafe s.emu).2)).2
    ∧ (∃ frameCount : Nat, (ExecStepFrame em cmd s).1
        = OkResponse cmd.id ("\x7b\"framesExecuted\":".toList
            ++ to_string (min (max cmd.count 1) 3600)
            ++ ",\"frameCount\":".toList ++ to_string (frameCount : Int) ++ "\x7d".toList))
    ∧ (cmd.count > 3600 → min (max cmd.count 1) 3600 = 3600)
    ∧ (cmd.count < 1 → min (max cmd.count 1) 3600 = 1) := by
  have hclamp : (if (if cmd.count < 1 then 1 else cmd.count) > 3600 then 3600
      else (if cmd.count < 1 then 1 else cmd.count)) = min (max cmd.count 1) 3600 := by
    split_ifs <;> omega
  refine ⟨?_, ?_, ?_, by omega, by omega⟩
  · simp only [ExecStepFrame, hrom, Core.call, hcon, hclamp, runFrames_eq]
    simp
  · simp only [ExecStepFrame, hrom, Core.call, hcon, hclamp, runFrames_eq]
    simp
  · simp only [ExecStepFrame, hrom, Core.call, hcon, hclamp, runFrames_eq]
    exact ⟨_, by simp; rfl⟩

theorem C4_step_frame_clamp_witness :
    (ExecStepFrame (toyEmu true) (stepBy 5000) loadedCore).2.calls
      = [EmuCall.GetConsoleUnsafe] ++ List.replicate 3600 EmuCall.RunFrame
        ++ [EmuCall.GetFrameCount]
    ∧ (ExecStepFrame (toyEmu true) (stepBy (-3)) loadedCore).2.calls
      = [EmuCall.GetConsoleUnsafe, EmuCall.RunFrame, EmuCall.GetFrameCount] :=
  ⟨(C4_step_frame_clamp (toyEmu true) (stepBy 5000) loadedCore rfl rfl).1,
   (C4_step_frame_clamp (toyEmu true) (stepBy (-3)) loadedCore rfl rfl).1⟩

/-! ## `ExecWriteMemory` -/

/-- C6: a `write_memory` command whose value is outside `[0, 255]` gets a failure reply carrying
the command's id, and the handler returns the control state, the emulator and the call log
untouched (no `SetMemoryValue`, no call at all), in every control state and for every
address. -/
theorem C6_write_value_out_of_range {E : Type} (em : Emulator E) (cmd : McpTypedCommand)
    (s : Core E) (hval : cmd.value < 0 ∨ cmd.value > 255) :
    (∃ error : Str, (ExecWriteMemory em cmd s).1 = ErrorResponse cmd.id error)
    ∧ (ExecWriteMemory em cmd s).2 = s
    ∧ (s.coreState.romLoaded = true → 0 ≤ cmd.address →
        (ExecWriteMemory em cmd s).1 = ErrorResponse cmd.id "value must be 0-255".toList) := by
  refine ⟨?_, ?_, ?_⟩
  · simp only [ExecWriteMemory, hval]
    split_ifs
    · exact ⟨_, rfl⟩
    · exact ⟨_, rfl⟩
    · exact ⟨_, rfl⟩
  · simp only [ExecWriteMemory, hval]
    split_ifs <;> rfl
  · intro hrom haddr
    have : ¬ cmd.address < 0 := by omega
    simp [ExecWriteMemory, hval, hrom, this]

theorem C6_write_value_out_of_range_witness :
    (ExecWriteMemory (toyEmu true) (writeAt10 300) loadedCore).1
        = "\x7b\"ok\":false,\"error\":\"value must be 0-255\",\"id\":3\x7d".toList
    ∧ (ExecWriteMemory (toyEmu true) (writeAt10 300) loadedCore).2 = loadedCore :=
  have h := C6_write_value_out_of_range (toyEmu true) (writeAt10 300) loadedCore
    (Or.inr (by decide))
  ⟨h.2.2 rfl (by decide), h.2.1⟩

/-! ## `ExecLoadRom` and the control state -/

/-- Every handler other than `ExecLoadRom` returns `_coreState` as it found it. -/
theorem ExecuteCommand_coreState {E : Type} (em : Emulator E) (cmd : McpTypedCommand)
    (s : Core E) (h : cmd.type ≠ McpCommandType.LoadRom) :
    (ExecuteCommand em cmd s).2.coreState = s.coreState := by
  unfold ExecuteCommand
  cases ht : cmd.type
  · exact absurd ht h
  · simp only [ExecStepFrame, runFrames_eq, Core.call]
    split_ifs <;> rfl
  · simp only [ExecReadMemory]
    split_ifs <;> simp [Core.call]
  · simp only [ExecWriteMemory]
    split_ifs <;> simp [Core.call]
  · simp only [ExecSetInput]
    split_ifs <;> simp [Core.call]
  · simp only [ExecGetState]
    split_ifs <;> simp [Core.call]

/-- A run of commands with no `load_rom` among them keeps `_coreState`. -/
theorem runCommands_coreState {E : Type} (em : Emulator E) (cmds : List McpTypedCommand)
    (s : Core E) (h : ∀ c ∈ cmds, c.type ≠ McpCommandType.LoadRom) :
    (runCommands em cmds s).coreState = s.coreState := by
  induction cmds generalizing s with
  | nil => rfl
  | cons c cs ih =>
    have hc := ExecuteCommand_coreState em c s (h c (List.mem_cons_self _ _))
    have := ih (ExecuteCommand em c s).2 (fun d hd => h d (List.mem_cons_of_mem _ hd))
    simpa [runCommands, hc] using this

/-- The four kinds that need a ROM are refused, with the command's id, when none is loaded. -/
theorem ExecuteCommand_refused {E : Type} (em : Emulator E) (cmd : McpTypedCommand)
    (s : Core E) (hrom : s.coreState.romLoaded = false)
    (hk : cmd.type ∈ [McpCommandType.StepFrame, McpCommandType.ReadMemory,
      McpCommandType.WriteMemory, McpCommandType.SetInput]) :
    (ExecuteCommand em cmd s).1 = ErrorResponse cmd.id "no ROM loaded".toList := by
  simp only [List.mem_cons, List.mem_singleton, List.not_mem_nil, or_false] at hk
  rcases hk with hk | hk | hk | hk <;>
    simp [ExecuteCommand, hk, ExecStepFrame, ExecReadMemory, ExecWriteMemory, ExecSetInput, hrom]

/-- What `ExecLoadRom` does when the path is not empty and `LoadRom` answers false. -/
theorem ExecLoadRom_rejected {E : Type} (em : Emulator E) (cmd : McpTypedCommand) (s : Core E)
    (hpath : cmd.path ≠ [])
    (hload : (em.LoadRom cmd.path (emuBeforeLoad em s.emu)).1 = false) :
    (ExecLoadRom em cmd s).1 = ErrorResponse cmd.id "failed to load ROM".toList
    ∧ (ExecLoadRom em cmd s).2.coreState
        = { romLoaded := false, consoleType := -1, externalControl := false } := by
  have hp : cmd.path.isEmpty = false := by
    cases h : cmd.path with
    | nil => exact absurd h hpath
    | cons a l => rfl
  unfold emuBeforeLoad at hload
  simp only [ExecLoadRom, hp, Core.call]
  split_ifs at hload ⊢ <;> simp_all

/-- A failure reply of `ExecLoadRom` on a non-empty path means `LoadRom` answered false. -/
theorem ExecLoadRom_error_rejected {E : Type} (em : Emulator E) (cmd : McpTypedCommand)
    (s : Core E) (hpath : cmd.path ≠ []) (error : Str)
    (hfail : (ExecLoadRom em cmd s).1 = ErrorResponse cmd.id error) :
    (em.LoadRom cmd.path (emuBeforeLoad em s.emu)).1 = false := by
  have hp : cmd.path.isEmpty = false := by
    cases h : cmd.path with
    | nil => exact absurd h hpath
    | cons a l => rfl
  cases hl : (em.LoadRom cmd.path (emuBeforeLoad em s.emu)).1
  · rfl
  · exfalso
    unfold emuBeforeLoad at hl
    simp only [ExecLoadRom, hp, Core.call] at hfail
    split_ifs at hfail hl <;> simp_all [OkResponse, ErrorResponse]

/-- C7, as stated, fails: with a ROM loaded, a `load_rom` with an empty path is answered with
the failure `missing path`, and `romLoaded` is still true afterwards, so a following
`step_frame` is not refused. -/
theorem C7_empty_path_keeps_loaded :
    (ExecLoadRom (toyEmu true) loadNothing loadedCore).1
        = "\x7b\"ok\":false,\"error\":\"missing path\",\"id\":2\x7d".toList
    ∧ (ExecLoadRom (toyEmu true) loadNothing loadedCore).2.coreState.romLoaded = true
    ∧ (ExecStepFrame (toyEmu true) (stepBy 1)
        (ExecLoadRom (toyEmu true) loadNothing loadedCore).2).1
        = "\x7b\"ok\":true,\"result\":\x7b\"framesExecuted\":1,\"frameCount\":1\x7d,\"id\":5\x7d".toList := by
  decide

/-- C7, amended: when `ExecLoadRom` returns a failure reply for a non-empty path (the emulator
rejected the load), the control state afterwards is unloaded, and after any further commands
other than `load_rom` every `step_frame`, `read_memory`, `write_memory` and `set_input` is
refused with `no ROM loaded`; for an empty path the handler answers `missing path` and returns
the control state, the emulator and the call log as they were. -/
theorem C7_failed_load_unloads {E : Type} (em : Emulator E) (cmd : McpTypedCommand)
    (s : Core E) :
    (cmd.path ≠ [] → (∃ error : Str, (ExecLoadRom em cmd s).1 = ErrorResponse cmd.id error) →
      (ExecLoadRom em cmd s).2.coreState
          = { romLoaded := false, consoleType := -1, externalControl := false }
      ∧ ∀ (mid : List McpTypedCommand) (next : McpTypedCommand),
          (∀ c ∈ mid, c.type ≠ McpCommandType.LoadRom) →
          next.type ∈ [McpCommandType.StepFrame, McpCommandType.ReadMemory,
            McpCommandType.WriteMemory, McpCommandType.SetInput] →
          (ExecuteCommand em next (runCommands em mid (ExecLoadRom em cmd s).2)).1
            = ErrorResponse next.id "no ROM loaded".toList)
    ∧ (cmd.path = [] →
        ExecLoadRom em cmd s = (ErrorResponse cmd.id "missing path".toList, s)) := by
  constructor
  · rintro hpath ⟨error, hfail⟩
    have hrej := ExecLoadRom_rejected em cmd s hpath
      (ExecLoadRom_error_rejected em cmd s hpath error hfail)
    refine ⟨hrej.2, ?_⟩
    intro mid next hmid hnext
    apply ExecuteCommand_refused em next _ _ hnext
    rw [runCommands_coreState em mid _ hmid, hrej.2]
  · intro hpath
    simp [ExecLoadRom, hpath]

theorem C7_failed_load_unloads_witness :
    (ExecLoadRom (toyEmu false) loadGame loadedCore).2.coreState
        = { romLoaded := false, consoleType := -1, externalControl := false }
    ∧ (ExecuteCommand (toyEmu false) (stepBy 1)
        (runCommands (toyEmu false) [getState4, writeAt10 7]
          (ExecLoadRom (toyEmu false) loadGame loadedCore).2)).1
        = "\x7b\"ok\":false,\"error\":\"no ROM loaded\",\"id\":5\x7d".toList :=
  have h := (C7_failed_load_unloads (toyEmu false) loadGame loadedCore).1 (by decide)
    ⟨"failed to load ROM".toList, by decide⟩
  ⟨h.1, h.2 [getState4, writeAt10 7] (stepBy 1) (by decide) (by decide)⟩

/-- C8: a `load_rom` with a non-empty path that the emulator fails to load is answered with
exactly the failure `failed to load ROM` carrying the command's id, the control state becomes
`(romLoaded = false, consoleType = -1, externalControl = false)`, and a `get_state` executed
next is answered with `rom_loaded:false` (the unloaded status object, with its own id) without
a call on the emulator. -/
theorem C8_unloadable_path {E : Type} (em : Emulator E) (cmd : McpTypedCommand) (s : Core E)
    (hpath : cmd.path ≠ [])
    (hload : (em.LoadRom cmd.path (emuBeforeLoad em s.emu)).1 = false) :
    (ExecLoadRom em cmd s).1
        = "\x7b\"ok\":false,\"error\":\"failed to load ROM\",\"id\":".toList ++ to_string cmd.id
          ++ "\x7d".toList
    ∧ (ExecLoadRom em cmd s).2.coreState
        = { romLoaded := false, consoleType := -1, externalControl := false }
    ∧ ∀ next : McpTypedCommand,
        ExecGetState em next (ExecLoadRom em cmd s).2
          = ("\x7b\"ok\":true,\"result\":\x7b\"rom_loaded\":false,\"console_type\":-1,\"mode\":\"free_running\"\x7d,\"id\":".toList
              ++ to_string next.id ++ "\x7d".toList, (ExecLoadRom em cmd s).2) := by
  have hrej := ExecLoadRom_rejected em cmd s hpath hload
  refine ⟨?_, hrej.2, ?_⟩
  · rw [hrej.1]
    simp [ErrorResponse, escape]
  · intro next
    simp only [ExecGetState, hrej.2]
    simp [OkResponse]
    rfl

theorem C8_unloadable_path_witness :
    ParseCommand "\x7b\"method\":\"load_rom\",\"id\":2,\"path\":\"game.rom\"\x7d".toList
        = some loadGame
    ∧ (ExecLoadRom (toyEmu false) loadGame loadedCore).1
        = "\x7b\"ok\":false,\"error\":\"failed to load ROM\",\"id\":2\x7d".toList
    ∧ (ExecGetState (toyEmu false) getState4 (ExecLoadRom (toyEmu false) loadGame loadedCore).2).1
        = "\x7b\"ok\":true,\"result\":\x7b\"rom_loaded\":false,\"console_type\":-1,\"mode\":\"free_running\"\x7d,\"id\":4\x7d".toList :=
  have h := C8_unloadable_path (toyEmu false) loadGame loadedCore (by decide) (by decide)
  ⟨by decide, h.1, congrArg Prod.fst (h.2.2 getState4)⟩

/-! ## `ParseCommand` -/

/-- A key that does not occur in the frame reads as the empty string. -/
theorem ExtractString_absent (json key : Str) (h : find json (quoted key) = none) :
    ExtractString json key = [] := by
  simp [ExtractString, h]

/-- A key that does not occur in the frame reads as the default. -/
theorem ExtractInt_absent (json key : Str) (d : Int) (h : find json (quoted key) = none) :
    ExtractInt json key d = d := by
  simp [ExtractInt, h]

/-- C10: `ParseCommand` returns a command exactly when the method name of the frame
(`ExtractString json "method"`) is one of the six names `load_rom`, `step_frame`,
`read_memory`, `write_memory`, `set_input`, `get_state`, and the kind of the command is the one
the table gives for that name; for every other name, for an empty name and for a frame in which
`"method"` does not occur it returns null. -/
theorem C10_six_methods (json : Str) :
    (ParseCommand json).map (fun cmd => cmd.type)
        = kindOfMethod (ExtractString json "method".toList)
    ∧ ((ParseCommand json).isSome ↔
        ExtractString json "method".toList ∈ ["load_rom".toList, "step_frame".toList,
          "read_memory".toList, "write_memory".toList, "set_input".toList, "get_state".toList])
    ∧ (ExtractString json "method".toList = [] → ParseCommand json = none)
    ∧ (find json (quoted "method".toList) = none → ParseCommand json = none) := by
  have hempty : ExtractString json "method".toList = [] → ParseCommand json = none := by
    intro h
    simp only [ParseCommand, h]
    rfl
  refine ⟨?_, ?_, hempty, fun h => hempty (ExtractString_absent json _ h)⟩
  · simp only [ParseCommand]
    generalize ExtractString json "method".toList = m
    split_ifs with h0 h1 h2 h3 h4 h5 h6
    · rw [List.isEmpty_iff.mp h0]
      rfl
    · subst h1; rfl
    · subst h2; rfl
    · subst h3; rfl
    · subst h4; rfl
    · subst h5; rfl
    · subst h6; rfl
    · have e1 : (m == "load_rom".toList) = false := beq_eq_false_iff_ne.mpr h1
      have e2 : (m == "step_frame".toList) = false := beq_eq_false_iff_ne.mpr h2
      have e3 : (m == "read_memory".toList) = false := beq_eq_false_iff_ne.mpr h3
      have e4 : (m == "write_memory".toList) = false := beq_eq_false_iff_ne.mpr h4
      have e5 : (m == "set_input".toList) = false := beq_eq_false_iff_ne.mpr h5
      have e6 : (m == "get_state".toList) = false := beq_eq_false_iff_ne.mpr h6
      simp only [kindOfMethod, methodTable, List.lookup, e1, e2, e3, e4, e5, e6, Option.map_none']
  · simp only [ParseCommand]
    generalize ExtractString json "method".toList = m
    split_ifs with h0 h1 h2 h3 h4 h5 h6
    · rw [List.isEmpty_iff.mp h0]
      decide
    · subst h1; simp
    · subst h2; simp
    · subst h3; simp
    · subst h4; simp
    · subst h5; simp
    · subst h6; simp
    · simp_all

theorem C10_six_methods_witness :
    ParseCommand "\x7b\"id\":1\x7d".toList = none
    ∧ ParseCommand "\x7b\"method\":\"reset\",\"id\":1\x7d".toList = none
    ∧ (ParseCommand "\x7b\"method\":\"set_input\",\"id\":1\x7d".toList).map (fun cmd => cmd.type)
        = some McpCommandType.SetInput :=
  ⟨(C10_six_methods "\x7b\"id\":1\x7d".toList).2.2.2 (by decide),
   by decide,
   (C10_six_methods "\x7b\"method\":\"set_input\",\"id\":1\x7d".toList).1.trans (by decide)⟩

/-! ## `DrainCommandQueue` -/

/-- The drain loop empties the queue, threads the core state through the commands in queue
order and appends one published object per command. -/
theorem drainLoop_eq {E : Type} (em : Emulator E) (queue : List McpTypedCommand)
    (core : Core E) (published : List McpTypedCommand) :
    drainLoop em queue core published
      = ([], runCommands em queue core, published ++ publishedBy em queue core) := by
  induction queue generalizing core published with
  | nil => simp [drainLoop, runCommands, publishedBy]
  | cons cmd queue ih =>
    rw [drainLoop, ih]
    simp [runCommands, publishedBy]

theorem publishedBy_length {E : Type} (em : Emulator E) (queue : List McpTypedCommand)
    (core : Core E) : (publishedBy em queue core).length = queue.length := by
  induction queue generalizing core with
  | nil => rfl
  | cons cmd queue ih => simp [publishedBy, ih]

/-- The `i`-th published object is the `i`-th command of the queue with the reply of its
execution in the state left by the commands before it. -/
theorem publishedBy_getElem? {E : Type} (em : Emulator E) (queue : List McpTypedCommand)
    (core : Core E) (i : Nat) (h : i < queue.length) :
    (publishedBy em queue core)[i]?
      = some ((queue.get ⟨i, h⟩).SetResponse
          (ExecuteCommand em (queue.get ⟨i, h⟩) (runCommands em (queue.take i) core)).1) := by
  induction queue generalizing core i with
  | nil => simp at h
  | cons cmd queue ih =>
    cases i with
    | zero => simp [publishedBy, runCommands]
    | succ j =>
      have hj : j < queue.length := by simpa using h
      simpa [publishedBy, runCommands] using ih (ExecuteCommand em cmd core).2 j hj

/-- C2: one call of `DrainCommandQueue` on the queue `[c1, ..., cn]` leaves the queue empty,
leaves the core state that executing `c1, ..., cn` one after the other in that order produces,
keeps what was published before, and publishes exactly `n` objects, the `i`-th being `ci` with
`responseReady` true and `response` the reply of executing `ci` in the state left by
`c1, ..., c(i-1)`. -/
theorem C2_drain_in_order {E : Type} (em : Emulator E) (srv : Server E) :
    (DrainCommandQueue em srv).commandQueue = []
    ∧ (DrainCommandQueue em srv).core = runCommands em srv.commandQueue srv.core
    ∧ (DrainCommandQueue em srv).published.length
        = srv.published.length + srv.commandQueue.length
    ∧ (DrainCommandQueue em srv).published.take srv.published.length = srv.published
    ∧ ∀ (i : Nat) (h : i < srv.commandQueue.length),
        ∃ obj : McpTypedCommand,
          (DrainCommandQueue em srv).published[srv.published.length + i]? = some obj
          ∧ obj.responseReady = true
          ∧ obj.response = (ExecuteCommand em (srv.commandQueue.get ⟨i, h⟩)
              (runCommands em (srv.commandQueue.take i) srv.core)).1
          ∧ obj = (srv.commandQueue.get ⟨i, h⟩).SetResponse obj.response := by
  have hd : DrainCommandQueue em srv
      = { core := runCommands em srv.commandQueue srv.core, commandQueue := [],
          published := srv.published ++ publishedBy em srv.commandQueue srv.core } := by
    simp only [DrainCommandQueue, drainLoop_eq]
  rw [hd]
  refine ⟨rfl, rfl, by simp [publishedBy_length], by simp, ?_⟩
  intro i h
  refine ⟨(srv.commandQueue.get ⟨i, h⟩).SetResponse (ExecuteCommand em
    (srv.commandQueue.get ⟨i, h⟩) (runCommands em (srv.commandQueue.take i) srv.core)).1,
    ?_, rfl, rfl, rfl⟩
  show (srv.published ++ publishedBy em srv.commandQueue srv.core)[srv.published.length + i]?
    = _
  rw [List.getElem?_append_right (Nat.le_add_right _ _), Nat.add_sub_cancel_left]
  exact publishedBy_getElem? em srv.commandQueue srv.core i h

theorem C2_drain_in_order_witness :
    (DrainCommandQueue (toyEmu true)
        { core := freshCore, commandQueue := [stepBy 2, loadGame, stepBy 2] }).commandQueue = []
    ∧ ((DrainCommandQueue (toyEmu true)
        { core := freshCore, commandQueue := [stepBy 2, loadGame, stepBy 2] }).published.map
          (fun obj => (obj.responseReady, String.mk obj.response)))
      = [(true, "\x7b\"ok\":false,\"error\":\"no ROM loaded\",\"id\":5\x7d"),
         (true, "\x7b\"ok\":true,\"result\":\x7b\"console_type\":2,\"path\":\"game.rom\",\"mode\":\"external_controlled\"\x7d,\"id\":2\x7d"),
         (true, "\x7b\"ok\":true,\"result\":\x7b\"framesExecuted\":2,\"frameCount\":2\x7d,\"id\":5\x7d")] :=
  ⟨(C2_drain_in_order (toyEmu true)
      { core := freshCore, commandQueue := [stepBy 2, loadGame, stepBy 2] }).1, by decide⟩

/-! ## `get_state` before any load -/

theorem getStateFrame_method (n : Int) :
    ExtractString (getStateFrame n) "method".toList = "get_state".toList := by
  rw [ExtractString_eq, valueText_located (getStateFrame n) "method".toList "\x7b".toList [] []
    ("\"get_state\",\"id\":".toList ++ to_string n ++ "\x7d".toList)]
  · simp [readString]
  · simp [getStateFrame, quoted]
  · simp [getStateFrame, find, findFrom, quoted]
  · simp
  · simp
  · intro c hc
    simp at hc
    rw [← hc]
    decide

theorem getStateFrame_id (n : Int) (hn : inInt32 n) :
    ExtractInt (getStateFrame n) "id".toList 0 = n := by
  apply ExtractInt_decimal (getStateFrame n) "id".toList
    "\x7b\"method\":\"get_state\",".toList [] [] "\x7d".toList n 0
  · simp [getStateFrame, quoted]
  · simp [getStateFrame, find, findFrom, quoted]
  · simp
  · simp
  · exact hn
  · intro c hc
    simp at hc
    rw [← hc]
    decide

/-- C9: in the initial control state, for every id `n` in the range of an `int`, the frame
`\x7b"method":"get_state","id":n\x7d` decodes to the `get_state` command with id `n`, and
executing it returns exactly the status object of an unloaded server with id `n`, with no call
on the emulator and the control state unchanged. -/
theorem C9_get_state_before_load {E : Type} (em : Emulator E) (e : E) (calls : List EmuCall)
    (n : Int) (hn : inInt32 n) :
    ParseCommand (getStateFrame n) = some { type := McpCommandType.GetState, id := n }
    ∧ ExecuteCommand em { type := McpCommandType.GetState, id := n }
        { coreState := {}, emu := e, calls := calls }
      = ("\x7b\"ok\":true,\"result\":\x7b\"rom_loaded\":false,\"console_type\":-1,\"mode\":\"free_running\"\x7d,\"id\":".toList
            ++ to_string n ++ "\x7d".toList,
          { coreState := {}, emu := e, calls := calls }) := by
  constructor
  · simp only [ParseCommand, getStateFrame_method, getStateFrame_id n hn]
    rfl
  · simp only [ExecuteCommand, ExecGetState]
    simp [OkResponse]
    rfl

theorem C9_get_state_before_load_witness :
    replyTo (toyEmu true) "\x7b\"method\":\"get_state\",\"id\":1\x7d".toList freshCore
      = some "\x7b\"ok\":true,\"result\":\x7b\"rom_loaded\":false,\"console_type\":-1,\"mode\":\"free_running\"\x7d,\"id\":1\x7d".toList :=
  have h := C9_get_state_before_load (toyEmu true) 0 [] 1 (by decide)
  show (ParseCommand (getStateFrame 1)).map
      (fun cmd => (ExecuteCommand (toyEmu true) cmd freshCore).1) = _ from by
    rw [h.1]
    exact congrArg (fun r => some r.1) h.2

/-! ## `ExecReadMemory` -/

/-- The fields `ParseCommand` gives a `read_memory` command. -/
theorem ParseCommand_read_memory (json : Str) (cmd : McpTypedCommand)
    (h : ParseCommand json = some cmd) (hk : cmd.type = McpCommandType.ReadMemory) :
    cmd.address = ExtractInt json "address".toList (-1)
    ∧ cmd.count = ExtractInt json "size".toList 1 := by
  simp only [ParseCommand] at h
  split_ifs at h <;> cases h <;> first | exact ⟨rfl, rfl⟩ | exact McpCommandType.noConfusion hk

theorem toDigits_count_comma (n : Nat) : (Nat.toDigits 10 n).count ',' = 0 := by
  rw [List.count_eq_zero]
  intro h
  exact absurd (toDigits_isDigit n ',' h) (by decide)

/-- The `data` text of `k` bytes holds `k - 1` commas. -/
theorem joinBytes_count_comma (b : Nat) (data : List Nat) :
    (joinBytes (b :: data)).count ',' = data.length := by
  induction data generalizing b with
  | nil => simp [joinBytes, to_string_natCast, toDigits_count_comma]
  | cons c rest ih =>
    simp only [joinBytes, List.count_append, to_string_natCast, toDigits_count_comma, ih c]
    simp
    omega

theorem fillBuffer_length (size : Nat) (written : List Nat) :
    (fillBuffer size written).length = size := by
  simp [fillBuffer]

theorem fillBuffer_getElem? (size : Nat) (written : List Nat) (i : Nat) (h : i < size) :
    (fillBuffer size written)[i]? = some (written.getD i 0 % 256) := by
  simp [fillBuffer, List.getElem?_map, List.getElem?_range h]

/-- The `data` loop prints the bytes in order, in decimal, with one comma between two
neighbours. -/
theorem joinBytes_eq_intercalate (data : List Nat) :
    joinBytes data = ",".toList.intercalate (data.map (fun b => Nat.toDigits 10 b)) := by
  induction data with
  | nil => rfl
  | cons b rest ih =>
    cases rest with
    | nil => simp [joinBytes, to_string_natCast, List.intercalate]
    | cons c rest =>
      rw [joinBytes, ih, to_string_natCast]
      simp [List.intercalate, List.intersperse]

theorem fillBuffer_of_memory (size first : Nat) (mem : Nat → Nat) :
    fillBuffer size ((List.range size).map (fun i => mem (first + i)))
      = (List.range size).map (fun i => mem (first + i) % 256) := by
  unfold fillBuffer
  apply List.map_congr_left
  intro i hi
  have hi2 : i < size := List.mem_range.mp hi
  simp [List.getD_eq_getElem?_getD, List.getElem?_map, List.getElem?_range hi2]

/-- C5: for a `read_memory` command on a loaded target with a non-negative address and the
debugger available, with `c = min (max size 1) 256`: if `c ≥ 2` the handler calls
`GetMemoryValues` once for the addresses `address .. address + c - 1` and the reply is the
object with `address`, `size` `c` and a `data` array that is the decimal text of exactly `c`
bytes separated by `c - 1` commas, the `i`-th being the byte the emulator stored at offset `i`
(so the byte at `address + i` when the emulator returns that range of its memory); if `c = 1`
the reply is the scalar object with `value` only, from one `GetMemoryValue` at the address;
`size > 256` gives `c = 256`; and a frame in which `"size"` does not occur decodes to
size 1. -/
theorem C5_read_memory_size {E : Type} (em : Emulator E) (cmd : McpTypedCommand) (s : Core E)
    (hrom : s.coreState.romLoaded = true) (haddr : 0 ≤ cmd.address)
    (hint : cmd.address ≤ 2147483647) (hdbg : (em.GetDebugger s.emu).1 = true) :
    (2 ≤ min (max cmd.count 1) 256 →
      ∃ data : List Nat,
        data.length = (min (max cmd.count 1) 256).toNat
        ∧ (∀ i, i < data.length → data[i]? = some
            ((em.GetMemoryValues (GetCpuMemoryType em.codes s.coreState.consoleType)
                cmd.address.toNat (cmd.address + min (max cmd.count 1) 256 - 1).toNat
                (em.GetDebugger s.emu).2).1.getD i 0 % 256))
        ∧ (ExecReadMemory em cmd s).1
            = OkResponse cmd.id ("\x7b\"address\":".toList ++ to_string cmd.address
                ++ ",\"size\":".toList ++ to_string (min (max cmd.count 1) 256)
                ++ ",\"data\":[".toList
                ++ ",".toList.intercalate (data.map (fun b => Nat.toDigits 10 b))
                ++ "]\x7d".toList)
        ∧ (",".toList.intercalate (data.map (fun b => Nat.toDigits 10 b))).count ','
            + 1 = data.length
        ∧ (ExecReadMemory em cmd s).2.calls
            = s.calls ++ [EmuCall.GetDebugger,
                EmuCall.GetMemoryValues (GetCpuMemoryType em.codes s.coreState.consoleType)
                  cmd.address.toNat (cmd.address + min (max cmd.count 1) 256 - 1).toNat]
        ∧ (∀ mem : Nat → Nat,
            (em.GetMemoryValues (GetCpuMemoryType em.codes s.coreState.consoleType)
                cmd.address.toNat (cmd.address + min (max cmd.count 1) 256 - 1).toNat
                (em.GetDebugger s.emu).2).1
              = (List.range (min (max cmd.count 1) 256).toNat).map
                  (fun i => mem (cmd.address.toNat + i)) →
            data = (List.range (min (max cmd.count 1) 256).toNat).map
                  (fun i => mem (cmd.address.toNat + i) % 256)))
    ∧ (min (max cmd.count 1) 256 = 1 →
        (ExecReadMemory em cmd s).1
            = OkResponse cmd.id ("\x7b\"value\":".toList
                ++ Nat.toDigits 10 ((em.GetMemoryValue
                    (GetCpuMemoryType em.codes s.coreState.consoleType) cmd.address.toNat
                    (em.GetDebugger s.emu).2).1 % 256) ++ "\x7d".toList)
        ∧ (ExecReadMemory em cmd s).2.calls
            = s.calls ++ [EmuCall.GetDebugger,
                EmuCall.GetMemoryValue (GetCpuMemoryType em.codes s.coreState.consoleType)
                  cmd.address.toNat])
    ∧ (cmd.count > 256 → min (max cmd.count 1) 256 = 256)
    ∧ (∀ (json : Str) (parsed : McpTypedCommand), ParseCommand json = some parsed →
        parsed.type = McpCommandType.ReadMemory →
        find json (quoted "size".toList) = none → parsed.count = 1) := by
  have hclamp : (if (if cmd.count < 1 then 1 else cmd.count) > 256 then 256
      else (if cmd.count < 1 then 1 else cmd.count)) = min (max cmd.count 1) 256 := by
    split_ifs <;> omega
  have hneg : ¬ cmd.address < 0 := by omega
  have hfirst : (cmd.address % 4294967296).toNat = cmd.address.toNat := by
    congr 1
    omega
  refine ⟨?_, ?_, by omega, ?_⟩
  · intro hc
    have hne : ¬ min (max cmd.count 1) 256 = 1 := by omega
    have hlast : ((cmd.address + min (max cmd.count 1) 256 - 1) % 4294967296).toNat
        = (cmd.address + min (max cmd.count 1) 256 - 1).toNat := by
      congr 1
      omega
    have hpos : 0 < (min (max cmd.count 1) 256).toNat := by omega
    refine ⟨fillBuffer (min (max cmd.count 1) 256).toNat
      (em.GetMemoryValues (GetCpuMemoryType em.codes s.coreState.consoleType)
        cmd.address.toNat (cmd.address + min (max cmd.count 1) 256 - 1).toNat
        (em.GetDebugger s.emu).2).1, fillBuffer_length _ _, ?_, ?_, ?_, ?_, ?_⟩
    · intro i hi
      rw [fillBuffer_length] at hi
      exact fillBuffer_getElem? _ _ i hi
    · rw [← joinBytes_eq_intercalate]
      simp only [ExecReadMemory, hrom, hneg, Core.call, hdbg, hclamp, hne, hfirst, hlast]
      rfl
    · rw [← joinBytes_eq_intercalate]
      cases hbuf : fillBuffer (min (max cmd.count 1) 256).toNat
          (em.GetMemoryValues (GetCpuMemoryType em.codes s.coreState.consoleType)
            cmd.address.toNat (cmd.address + min (max cmd.count 1) 256 - 1).toNat
            (em.GetDebugger s.emu).2).1 with
      | nil =>
        have := fillBuffer_length (min (max cmd.count 1) 256).toNat
          (em.GetMemoryValues (GetCpuMemoryType em.codes s.coreState.consoleType)
            cmd.address.toNat (cmd.address + min (max cmd.count 1) 256 - 1).toNat
            (em.GetDebugger s.emu).2).1
        rw [hbuf] at this
        simp at this
        omega
      | cons b data => simp [joinBytes_count_comma]
    · simp only [ExecReadMemory, hrom, hneg, Core.call, hdbg, hclamp, hne, hfirst, hlast]
      simp
    · intro mem hmem
      rw [hmem]
      exact fillBuffer_of_memory _ _ mem
  · intro hc
    constructor
    · rw [← to_string_natCast]
      simp only [ExecReadMemory, hrom, hneg, Core.call, hdbg, hclamp, hc, hfirst]
      rfl
    · simp only [ExecReadMemory, hrom, hneg, Core.call, hdbg, hclamp, hc, hfirst]
      simp
  · intro json parsed hp hk habs
    rw [(ParseCommand_read_memory json parsed hp hk).2]
    exact ExtractInt_absent json _ 1 habs

theorem C5_read_memory_size_witness :
    (ExecReadMemory (toyEmu true) (readAt16 1000) loadedCore).2.calls
        = [EmuCall.GetDebugger, EmuCall.GetMemoryValues MemoryType.NesMemory 16 271]
    ∧ (∃ data : List Nat,
        data.length = 256
        ∧ data = (List.range 256).map (fun i => (16 + i) % 256 % 256)
        ∧ (ExecReadMemory (toyEmu true) (readAt16 1000) loadedCore).1
          = OkResponse 7 ("\x7b\"address\":".toList ++ to_string 16
              ++ ",\"size\":".toList ++ to_string 256 ++ ",\"data\":[".toList
              ++ ",".toList.intercalate (data.map (fun b => Nat.toDigits 10 b))
              ++ "]\x7d".toList))
    ∧ (ExecReadMemory (toyEmu true) (readAt16 4) loadedCore).1
        = "\x7b\"ok\":true,\"result\":\x7b\"address\":16,\"size\":4,\"data\":[16,17,18,19]\x7d,\"id\":7\x7d".toList
    ∧ (ExecReadMemory (toyEmu true) (readAt16 1) loadedCore).1
        = "\x7b\"ok\":true,\"result\":\x7b\"value\":16\x7d,\"id\":7\x7d".toList
    ∧ (ParseCommand "\x7b\"method\":\"read_memory\",\"id\":7,\"address\":16\x7d".toList).map
        (fun cmd => cmd.count) = some 1 :=
  have h := C5_read_memory_size (toyEmu true) (readAt16 1000) loadedCore rfl (by decide)
    (by decide) rfl
  have h4 := C5_read_memory_size (toyEmu true) (readAt16 4) loadedCore rfl (by decide)
    (by decide) rfl
  have h1 := C5_read_memory_size (toyEmu true) (readAt16 1) loadedCore rfl (by decide)
    (by decide) rfl
  ⟨by
    obtain ⟨data, _, _, _, _, hcalls, _⟩ := h.1 (by decide)
    exact hcalls,
   by
    obtain ⟨data, hlen, _, hreply, _, _, hmem⟩ := h.1 (by decide)
    exact ⟨data, hlen, hmem (fun a => a % 256) rfl, hreply⟩,
   by
    obtain ⟨data, _, _, hreply, _, _, hmem⟩ := h4.1 (by decide)
    rw [hreply, hmem (fun a => a % 256) rfl]
    decide,
   (h1.2.1 (by decide)).1, by decide⟩

/-! ## The id of the reply -/

theorem OkResponse_suffix (id : Int) (resultJson : Str) :
    (",\"id\":".toList ++ to_string id ++ "\x7d".toList) <:+ OkResponse id resultJson :=
  ⟨"\x7b\"ok\":true,\"result\":".toList ++ resultJson, by simp [OkResponse]⟩

theorem ErrorResponse_suffix (id : Int) (error : Str) :
    (",\"id\":".toList ++ to_string id ++ "\x7d".toList) <:+ ErrorResponse id error :=
  ⟨"\x7b\"ok\":false,\"error\":\"".toList ++ escape error ++ "\"".toList,
    by simp [ErrorResponse]⟩

/-- Every reply of the command router ends with the id of the command it executed. -/
theorem ExecuteCommand_suffix {E : Type} (em : Emulator E) (cmd : McpTypedCommand)
    (s : Core E) :
    (",\"id\":".toList ++ to_string cmd.id ++ "\x7d".toList) <:+ (ExecuteCommand em cmd s).1 := by
  unfold ExecuteCommand
  cases cmd.type
  · simp only [ExecLoadRom]
    split_ifs <;> dsimp only <;>
      first | with_reducible exact OkResponse_suffix _ _
            | with_reducible exact ErrorResponse_suffix _ _
  · simp only [ExecStepFrame]
    split_ifs <;> dsimp only <;>
      first | with_reducible exact OkResponse_suffix _ _
            | with_reducible exact ErrorResponse_suffix _ _
  · simp only [ExecReadMemory]
    split_ifs <;> dsimp only <;>
      first | with_reducible exact OkResponse_suffix _ _
            | with_reducible exact ErrorResponse_suffix _ _
  · simp only [ExecWriteMemory]
    split_ifs <;> dsimp only <;>
      first | with_reducible exact OkResponse_suffix _ _
            | with_reducible exact ErrorResponse_suffix _ _
  · simp only [ExecSetInput]
    split_ifs <;> dsimp only <;>
      first | with_reducible exact OkResponse_suffix _ _
            | with_reducible exact ErrorResponse_suffix _ _
  · simp only [ExecGetState]
    split_ifs <;> dsimp only <;> with_reducible exact OkResponse_suffix _ _

/-- The id `ParseCommand` gives a command is what `ExtractInt` reads for `"id"`. -/
theorem ParseCommand_id (json : Str) (cmd : McpTypedCommand)
    (h : ParseCommand json = some cmd) : cmd.id = ExtractInt json "id".toList 0 := by
  simp only [ParseCommand] at h
  split_ifs at h <;> cases h <;> rfl

/-- C1, as stated, fails: the frame
`\x7b"method":"get_state","params":\x7b"id":5\x7d,"id":7\x7d` is a well-formed JSON object
with a recognised method and the integer id 7, and its reply carries id 5 (the number after
the first occurrence of `"id"` in the text), not 7. -/
theorem C1_nested_id_is_echoed :
    replyTo (toyEmu true)
        "\x7b\"method\":\"get_state\",\"params\":\x7b\"id\":5\x7d,\"id\":7\x7d".toList freshCore
      = some "\x7b\"ok\":true,\"result\":\x7b\"rom_loaded\":false,\"console_type\":-1,\"mode\":\"free_running\"\x7d,\"id\":5\x7d".toList
    ∧ ∀ reply, replyTo (toyEmu true)
        "\x7b\"method\":\"get_state\",\"params\":\x7b\"id\":5\x7d,\"id\":7\x7d".toList freshCore
          = some reply → ¬ (",\"id\":7\x7d".toList <:+ reply) := by
  have h : replyTo (toyEmu true)
        "\x7b\"method\":\"get_state\",\"params\":\x7b\"id\":5\x7d,\"id\":7\x7d".toList freshCore
      = some "\x7b\"ok\":true,\"result\":\x7b\"rom_loaded\":false,\"console_type\":-1,\"mode\":\"free_running\"\x7d,\"id\":5\x7d".toList := by
    decide
  refine ⟨h, ?_⟩
  intro reply hr
  rw [h] at hr
  cases hr
  decide

/-- C1, amended: for every frame on which `ParseCommand` returns a command, every control state
and every emulator, the reply of `ExecuteCommand` ends with `,"id":k\x7d` where `k` is the id
`ParseCommand` decoded, `ExtractInt json "id" 0`: the number read after the first occurrence of
`"id"` in the text of the frame.  When that first occurrence is followed by colon-free text, a
colon, spaces or tabs, the decimal text of an integer `n` in the range of an `int` and then no
digit, the reply ends with `,"id":n\x7d`. -/
theorem C1_reply_carries_decoded_id {E : Type} (em : Emulator E) (s : Core E) (json : Str)
    (cmd : McpTypedCommand) (hparse : ParseCommand json = some cmd) :
    cmd.id = ExtractInt json "id".toList 0
    ∧ (",\"id\":".toList ++ to_string (ExtractInt json "id".toList 0) ++ "\x7d".toList)
        <:+ (ExecuteCommand em cmd s).1
    ∧ ∀ (pre mid ws rest : Str) (n : Int),
        json = pre ++ quoted "id".toList ++ mid ++ ':' :: ws ++ (to_string n ++ rest) →
        find json (quoted "id".toList) = some pre.length →
        ':' ∉ mid → (∀ c ∈ ws, isBlank c = true) → inInt32 n →
        (∀ c, rest.head? = some c → isDigit c = false) →
        (",\"id\":".toList ++ to_string n ++ "\x7d".toList) <:+ (ExecuteCommand em cmd s).1 := by
  have hid := ParseCommand_id json cmd hparse
  refine ⟨hid, hid ▸ ExecuteCommand_suffix em cmd s, ?_⟩
  intro pre mid ws rest n hjson hfirst hmid hws hn hrest
  have hn' := ExtractInt_decimal json "id".toList pre mid ws rest n 0 hjson hfirst hmid hws hn
    hrest
  rw [← hn', ← hid]
  exact ExecuteCommand_suffix em cmd s

theorem C1_reply_carries_decoded_id_witness :
    ParseCommand
        "\x7b\"method\":\"write_memory\",\"id\":3,\"address\":10,\"value\":300\x7d".toList
      = some (writeAt10 300)
    ∧ (",\"id\":3\x7d".toList <:+ (ExecuteCommand (toyEmu true) (writeAt10 300) loadedCore).1) :=
  have hp : ParseCommand
        "\x7b\"method\":\"write_memory\",\"id\":3,\"address\":10,\"value\":300\x7d".toList
      = some (writeAt10 300) := by decide
  ⟨hp, (C1_reply_carries_decoded_id (toyEmu true) loadedCore _ _ hp).2.2
    "\x7b\"method\":\"write_memory\",".toList [] []
    ",\"address\":10,\"value\":300\x7d".toList 3 (by decide) (by decide) (by decide)
    (by decide) (by decide) (by decide)⟩

/-! ## Defaults of missing fields -/

/-- The fields `ParseCommand` fills in, by kind. -/
theorem ParseCommand_fields (json : Str) (cmd : McpTypedCommand)
    (h : ParseCommand json = some cmd) :
    cmd.id = ExtractInt json "id".toList 0
    ∧ (cmd.type = McpCommandType.StepFrame → cmd.count = ExtractInt json "count".toList 1)
    ∧ (cmd.type = McpCommandType.ReadMemory →
        cmd.address = ExtractInt json "address".toList (-1)
        ∧ cmd.count = ExtractInt json "size".toList 1)
    ∧ (cmd.type = McpCommandType.WriteMemory →
        cmd.address = ExtractInt json "address".toList (-1)
        ∧ cmd.value = ExtractInt json "value".toList (-1))
    ∧ (cmd.type = McpCommandType.SetInput →
        cmd.port = ExtractInt json "port".toList 0
        ∧ cmd.buttons = ExtractInt json "buttons".toList 0) := by
  simp only [ParseCommand] at h
  split_ifs at h <;> cases h <;> refine ⟨rfl, ?_, ?_, ?_, ?_⟩ <;> intro hk <;>
    first | exact McpCommandType.noConfusion hk | rfl | exact ⟨rfl, rfl⟩

/-- C11: when `ParseCommand` returns a command, a numeric field whose quoted key does not occur
in the frame has its default: `id` 0 for every kind, `count` 1 for `step_frame`, `address` -1
and size 1 for `read_memory`, `address` -1 and `value` -1 for `write_memory`, `port` 0 and
`buttons` 0 for `set_input`; so a missing address is never decoded as address 0. -/
theorem C11_missing_field_defaults (json : Str) (cmd : McpTypedCommand)
    (h : ParseCommand json = some cmd) :
    (find json (quoted "id".toList) = none → cmd.id = 0)
    ∧ (cmd.type = McpCommandType.StepFrame →
        find json (quoted "count".toList) = none → cmd.count = 1)
    ∧ (cmd.type = McpCommandType.ReadMemory →
        (find json (quoted "address".toList) = none → cmd.address = -1 ∧ cmd.address ≠ 0)
        ∧ (find json (quoted "size".toList) = none → cmd.count = 1))
    ∧ (cmd.type = McpCommandType.WriteMemory →
        (find json (quoted "address".toList) = none → cmd.address = -1 ∧ cmd.address ≠ 0)
        ∧ (find json (quoted "value".toList) = none → cmd.value = -1))
    ∧ (cmd.type = McpCommandType.SetInput →
        (find json (quoted "port".toList) = none → cmd.port = 0)
        ∧ (find json (quoted "buttons".toList) = none → cmd.buttons = 0)) := by
  obtain ⟨hid, hstep, hread, hwrite, hinput⟩ := ParseCommand_fields json cmd h
  refine ⟨fun ha => ?_, fun hk ha => ?_, fun hk => ⟨fun ha => ?_, fun ha => ?_⟩,
    fun hk => ⟨fun ha => ?_, fun ha => ?_⟩, fun hk => ⟨fun ha => ?_, fun ha => ?_⟩⟩
  · rw [hid, ExtractInt_absent json _ _ ha]
  · rw [hstep hk, ExtractInt_absent json _ _ ha]
  · rw [(hread hk).1, ExtractInt_absent json _ _ ha]
    exact ⟨rfl, by decide⟩
  · rw [(hread hk).2, ExtractInt_absent json _ _ ha]
  · rw [(hwrite hk).1, ExtractInt_absent json _ _ ha]
    exact ⟨rfl, by decide⟩
  · rw [(hwrite hk).2, ExtractInt_absent json _ _ ha]
  · rw [(hinput hk).1, ExtractInt_absent json _ _ ha]
  · rw [(hinput hk).2, ExtractInt_absent json _ _ ha]

theorem C11_missing_field_defaults_witness :
    ParseCommand "\x7b\"method\":\"write_memory\"\x7d".toList = some bareWrite
    ∧ bareWrite.id = 0 ∧ bareWrite.address = -1 ∧ bareWrite.value = -1 :=
  have h := C11_missing_field_defaults "\x7b\"method\":\"write_memory\"\x7d".toList bareWrite
    (by decide)
  ⟨by decide, h.1 (by decide), ((h.2.2.2.1 rfl).1 (by decide)).1,
    (h.2.2.2.1 rfl).2 (by decide)⟩

/-! ## The connection handler -/

/-- C12: a line on which `ParseCommand` fails makes the connection handler send exactly
`\x7b"ok":false,"error":"invalid command","id":0\x7d` and a newline, whatever the line holds;
the server it shares with the core thread (queue, control state, emulator, call log) is left
as it was. -/
theorem C12_invalid_command {E : Type} (em : Emulator E) (drained : Bool) (line : Str)
    (ss : Session E) (hfail : ParseCommand line = none) :
    handleLine em drained line ss
      = { server := ss.server,
          sent := ss.sent
            ++ ["\x7b\"ok\":false,\"error\":\"invalid command\",\"id\":0\x7d\n".toList],
          frames := ss.frames ++ [line] } := by
  simp only [handleLine, hfail]
  rfl

theorem C12_invalid_command_witness :
    (handleLine (toyEmu true) true "\x7b\"method\":\"reset\",\"id\":9\x7d".toList
        freshSession).sent
      = ["\x7b\"ok\":false,\"error\":\"invalid command\",\"id\":0\x7d\n".toList]
    ∧ (handleLine (toyEmu true) true "\x7b\"method\":\"reset\",\"id\":9\x7d".toList
        freshSession).server.commandQueue = [] :=
  have h := C12_invalid_command (toyEmu true) true
    "\x7b\"method\":\"reset\",\"id\":9\x7d".toList freshSession (by decide)
  ⟨congrArg Session.sent h, congrArg (fun t => t.server.commandQueue) h⟩

/-- C13: `WaitForResponse` returns the stored response when one has been published
(`responseReady` set by `SetResponse`), in particular `r` after `SetResponse r`; when the wait
ends with nothing published it returns exactly `\x7b"ok":false,"error":"timeout","id":0\x7d`,
whatever the id of the command. -/
theorem C13_wait_for_response (cmd : McpTypedCommand) (r : Str) :
    (cmd.SetResponse r).WaitForResponse = r
    ∧ (cmd.responseReady = true → cmd.WaitForResponse = cmd.response)
    ∧ (cmd.responseReady = false →
        cmd.WaitForResponse = "\x7b\"ok\":false,\"error\":\"timeout\",\"id\":0\x7d".toList) := by
  refine ⟨rfl, fun h => ?_, fun h => ?_⟩
  · simp [McpTypedCommand.WaitForResponse, h]
  · simp [McpTypedCommand.WaitForResponse, h, timeoutReply]

theorem C13_wait_for_response_witness :
    pendingGetState.WaitForResponse
        = "\x7b\"ok\":false,\"error\":\"timeout\",\"id\":0\x7d".toList
    ∧ (pendingGetState.SetResponse "done".toList).WaitForResponse = "done".toList :=
  ⟨(C13_wait_for_response pendingGetState []).2.2 rfl,
   (C13_wait_for_response pendingGetState "done".toList).1⟩

/-- C14 fails on the code: the frame `\x7b"method":"load_rom","id":1,"path":"a\nb"\x7d` (the
two characters backslash and `n` in the path) decodes to a path holding a newline, and when the
emulator loads it the path is echoed unescaped, so the one message sent for the frame holds two
newline characters. -/
theorem C14_path_newline_is_echoed :
    (handleLine (toyEmu true) true
        "\x7b\"method\":\"load_rom\",\"id\":1,\"path\":\"a\\nb\"\x7d".toList freshSession).sent
      = ["\x7b\"ok\":true,\"result\":\x7b\"console_type\":2,\"path\":\"a\nb\",\"mode\":\"external_controlled\"\x7d,\"id\":1\x7d\n".toList]
    ∧ ((handleLine (toyEmu true) true
        "\x7b\"method\":\"load_rom\",\"id\":1,\"path\":\"a\\nb\"\x7d".toList freshSession).sent.map
          (fun message => message.count '\n')) = [2] := by
  decide

/-! ## Writers of the control state -/

/-- C15: each of `ExecStepFrame`, `ExecReadMemory`, `ExecWriteMemory`, `ExecSetInput` and
`ExecGetState` returns `_coreState` (`romLoaded`, `consoleType`, `externalControl`) exactly as
it found it, in every control state, for every command and every emulator, on success and on
every failure branch. -/
theorem C15_only_load_writes_state {E : Type} (em : Emulator E) (cmd : McpTypedCommand)
    (s : Core E) :
    ∀ H ∈ [ExecStepFrame em, ExecReadMemory em, ExecWriteMemory em, ExecSetInput em,
        ExecGetState em],
      (H cmd s).2.coreState = s.coreState := by
  intro H hH
  simp only [List.mem_cons, List.mem_singleton, List.not_mem_nil, or_false] at hH
  rcases hH with rfl | rfl | rfl | rfl | rfl
  · simp only [ExecStepFrame, runFrames_eq, Core.call]
    split_ifs <;> rfl
  · simp only [ExecReadMemory]
    split_ifs <;> simp [Core.call]
  · simp only [ExecWriteMemory]
    split_ifs <;> simp [Core.call]
  · simp only [ExecSetInput]
    split_ifs <;> simp [Core.call]
  · simp only [ExecGetState]
    split_ifs <;> simp [Core.call]

theorem C15_only_load_writes_state_witness :
    (ExecStepFrame (toyEmu true) (stepBy 3) loadedCore).2.coreState = loadedCore.coreState
    ∧ (ExecGetState (toyEmu true) getState4 loadedCore).2.coreState = loadedCore.coreState :=
  ⟨C15_only_load_writes_state (toyEmu true) (stepBy 3) loadedCore (ExecStepFrame (toyEmu true))
      (by simp),
   C15_only_load_writes_state (toyEmu true) getState4 loadedCore (ExecGetState (toyEmu true))
      (by simp)⟩

/-- Executing one command keeps the control state in one of the two shapes "as at start-up"
and "loaded and externally controlled". -/
theorem ExecuteCommand_two_states {E : Type} (em : Emulator E) (cmd : McpTypedCommand)
    (s : Core E)
    (h : s.coreState = {} ∨ (s.coreState.romLoaded = true ∧ s.coreState.externalControl = true)) :
    (ExecuteCommand em cmd s).2.coreState = {}
    ∨ ((ExecuteCommand em cmd s).2.coreState.romLoaded = true
        ∧ (ExecuteCommand em cmd s).2.coreState.externalControl = true) := by
  by_cases hk : cmd.type = McpCommandType.LoadRom
  · simp only [ExecuteCommand, hk, ExecLoadRom]
    split_ifs
    · exact h
    · exact Or.inl rfl
    · exact Or.inr ⟨rfl, rfl⟩
    · exact Or.inl rfl
    · exact Or.inr ⟨rfl, rfl⟩
  · rw [ExecuteCommand_coreState em cmd s hk]
    exact h

theorem runCommands_two_states {E : Type} (em : Emulator E) (cmds : List McpTypedCommand)
    (s : Core E)
    (h : s.coreState = {} ∨ (s.coreState.romLoaded = true ∧ s.coreState.externalControl = true)) :
    (runCommands em cmds s).coreState = {}
    ∨ ((runCommands em cmds s).coreState.romLoaded = true
        ∧ (runCommands em cmds s).coreState.externalControl = true) := by
  induction cmds generalizing s with
  | nil => exact h
  | cons c cs ih => exact ih (ExecuteCommand em c s).2 (ExecuteCommand_two_states em c s h)

/-- C19: in every control state reached from the initial one by a sequence of commands (any
kinds, any parameters, any emulator), `externalControl` equals `romLoaded`, and
`romLoaded = false` implies `consoleType = -1`: the state is either the initial unloaded
record or loaded and externally controlled. -/
theorem C19_reachable_states {E : Type} (em : Emulator E) (e : E) (calls : List EmuCall)
    (cmds : List McpTypedCommand) :
    (runCommands em cmds { coreState := {}, emu := e, calls := calls }).coreState.externalControl
      = (runCommands em cmds { coreState := {}, emu := e, calls := calls }).coreState.romLoaded
    ∧ ((runCommands em cmds { coreState := {}, emu := e, calls := calls }).coreState.romLoaded
        = false →
      (runCommands em cmds { coreState := {}, emu := e, calls := calls }).coreState.consoleType
        = -1)
    ∧ ((runCommands em cmds { coreState := {}, emu := e, calls := calls }).coreState
        = { consoleType := -1, romLoaded := false, externalControl := false }
      ∨ ((runCommands em cmds { coreState := {}, emu := e, calls := calls }).coreState.romLoaded
          = true
        ∧ (runCommands em cmds
            { coreState := {}, emu := e, calls := calls }).coreState.externalControl = true)) := by
  have h := runCommands_two_states em cmds { coreState := {}, emu := e, calls := calls }
    (Or.inl rfl)
  refine ⟨?_, ?_, h⟩
  · rcases h with h | ⟨h1, h2⟩
    · rw [h]
    · rw [h1, h2]
  · intro hr
    rcases h with h | ⟨h1, _⟩
    · rw [h]
    · rw [h1] at hr
      exact Bool.noConfusion hr

theorem C19_reachable_states_witness :
    (runCommands (toyEmu true) [loadGame, stepBy 2, loadNothing] freshCore).coreState
        = { consoleType := 2, romLoaded := true, externalControl := true }
    ∧ (runCommands (toyEmu false) [loadGame, stepBy 2] loadedCore).coreState
        = { consoleType := -1, romLoaded := false, externalControl := false }
    ∧ (runCommands (toyEmu true) [loadGame, stepBy 2, loadNothing]
        freshCore).coreState.externalControl
      = (runCommands (toyEmu true) [loadGame, stepBy 2, loadNothing]
        freshCore).coreState.romLoaded :=
  ⟨by decide, by decide,
   (C19_reachable_states (toyEmu true) 0 [] [loadGame, stepBy 2, loadNothing]).1⟩

/-! ## Enqueues during a drain -/

/-- C16, as stated, fails: with `load_rom` queued when the drain starts and a `step_frame`
enqueued while that `load_rom` executes, the same call of `DrainCommandQueue` executes both:
it publishes two responses (the `step_frame` already on the loaded ROM) and leaves the queue
empty. -/
theorem C16_late_command_same_drain :
    (drainWith (toyEmu true) [[stepBy 2]] [loadGame] freshCore []).1 = []
    ∧ (drainWith (toyEmu true) [[stepBy 2]] [loadGame] freshCore []).2.2.map
        (fun obj => (obj.id, obj.responseReady, String.mk obj.response))
      = [(2, true, "\x7b\"ok\":true,\"result\":\x7b\"console_type\":2,\"path\":\"game.rom\",\"mode\":\"external_controlled\"\x7d,\"id\":2\x7d"),
         (5, true, "\x7b\"ok\":true,\"result\":\x7b\"framesExecuted\":2,\"frameCount\":2\x7d,\"id\":5\x7d")] := by
  decide

/-- The drain with enqueues meanwhile does what a plain drain does on the initial queue
followed by the commands `absorbed` counts in. -/
theorem drainWith_eq {E : Type} (em : Emulator E) (arrivals : List (List McpTypedCommand))
    (queue : List McpTypedCommand) (core : Core E) (published : List McpTypedCommand) :
    drainWith em arrivals queue core published
      = drainLoop em (queue ++ absorbed arrivals queue.length) core published := by
  induction arrivals generalizing queue core published with
  | nil =>
    cases queue with
    | nil => rfl
    | cons cmd queue => simp [drainWith, absorbed]
  | cons arrived arrivals ih =>
    cases queue with
    | nil => rfl
    | cons cmd queue =>
      rw [drainWith, ih]
      simp [drainLoop, absorbed, List.append_assoc]

/-- When at every enqueue a command is executing, every enqueued command is counted in. -/
theorem absorbed_all (arrivals : List (List McpTypedCommand)) (queued : Nat)
    (h : ∀ k, k < arrivals.length →
      k < queued + ((arrivals.take k).map List.length).sum) :
    absorbed arrivals queued = arrivals.flatten := by
  induction arrivals generalizing queued with
  | nil => cases queued <;> rfl
  | cons arrived arrivals ih =>
    cases queued with
    | zero =>
      have := h 0 (by simp)
      simp at this
    | succ n =>
      rw [absorbed, ih]
      · simp
      · intro k hk
        have := h (k + 1) (by simpa using hk)
        simp only [List.take_succ_cons, List.map_cons, List.sum_cons] at this
        omega

/-- C16, amended: one call of `DrainCommandQueue` executes commands one at a time until it
finds the queue empty.  For every schedule of enqueues, the call does exactly what a drain
with no enqueue does on the initial queue followed by the commands enqueued before the queue
was found empty; when every enqueue happens while some command of the call executes (one of
the initial queue or one enqueued earlier in the same call), that is the initial queue
followed by all the commands enqueued, in FIFO order, and the call ends with the queue empty.
A call that finds the queue empty returns at once, so what is enqueued after that waits for
the next call. -/
theorem C16_drain_until_empty {E : Type} (em : Emulator E)
    (arrivals : List (List McpTypedCommand)) (queue : List McpTypedCommand) (core : Core E)
    (published : List McpTypedCommand) :
    drainWith em arrivals queue core published
      = drainLoop em (queue ++ absorbed arrivals queue.length) core published
    ∧ ((∀ k, k < arrivals.length →
          k < queue.length + ((arrivals.take k).map List.length).sum) →
        drainWith em arrivals queue core published
          = ([], runCommands em (queue ++ arrivals.flatten) core,
              published ++ publishedBy em (queue ++ arrivals.flatten) core))
    ∧ drainWith em arrivals [] core published = ([], core, published) := by
  refine ⟨drainWith_eq em arrivals queue core published, ?_, ?_⟩
  · intro h
    rw [drainWith_eq, absorbed_all arrivals queue.length h, drainLoop_eq]
  · cases arrivals <;> rfl

theorem C16_drain_until_empty_witness :
    drainWith (toyEmu true) [[stepBy 2], [getState4]] [loadGame] freshCore []
      = drainLoop (toyEmu true) [loadGame, stepBy 2, getState4] freshCore []
    ∧ (drainWith (toyEmu true) [[stepBy 2], [getState4]] [loadGame] freshCore []).1 = []
    ∧ (drainWith (toyEmu true) [[stepBy 2], [getState4]] [loadGame] freshCore []).2.2.map
        (fun obj => (obj.id, obj.responseReady, String.mk obj.response))
      = [(2, true, "\x7b\"ok\":true,\"result\":\x7b\"console_type\":2,\"path\":\"game.rom\",\"mode\":\"external_controlled\"\x7d,\"id\":2\x7d"),
         (5, true, "\x7b\"ok\":true,\"result\":\x7b\"framesExecuted\":2,\"frameCount\":2\x7d,\"id\":5\x7d"),
         (4, true, "\x7b\"ok\":true,\"result\":\x7b\"rom_loaded\":true,\"console_type\":2,\"mode\":\"external_controlled\",\"frame_count\":2,\"pc\":0\x7d,\"id\":4\x7d")] :=
  ⟨(C16_drain_until_empty (toyEmu true) [[stepBy 2], [getState4]] [loadGame] freshCore []).1,
   by decide, by decide⟩

/-! ## `ExtractInt` on decimal text -/

/-- The number read at the start of a text that does not start with a digit, nor with `-`
followed by a digit, is the default. -/
theorem intOfText_no_digit (t : Str) (d : Int)
    (h : (∀ c, t.head? = some c → isDigit c = false ∧ c ≠ '-')
      ∨ (∃ u, t = '-' :: u ∧ ∀ c, u.head? = some c → isDigit c = false)) :
    intOfText t d = d := by
  have hread : ∀ u : Str, (∀ c, u.head? = some c → isDigit c = false) →
      readDigits u 0 false = (0, false) := by
    intro u hu
    cases u with
    | nil => rfl
    | cons c cs => simp [readDigits, hu c rfl]
  rcases h with h | ⟨u, rfl, hu⟩
  · have hhead : t.head? ≠ some '-' := fun e => (h '-' e).2 rfl
    simp [intOfText, hhead, hread t (fun c hc => (h c hc).1)]
  · simp [intOfText, hread u hu]

/-- C18: `ExtractInt` reads back decimal integers.  On a text whose first occurrence of the
quoted key is followed by (colon-free text and) a colon, spaces or tabs, the decimal text of an
integer `n` in the range of an `int` and then a non-digit or the end of the text, it returns
`n` (the accumulation being 32-bit two's-complement arithmetic); it returns the default when
the key does not occur, and when what follows the colon and the blanks starts neither with a
digit nor with `-` and a digit. -/
theorem C18_extract_int_reads_decimal (json key : Str) (d : Int) :
    (∀ (pre mid ws rest : Str) (n : Int),
      json = pre ++ quoted key ++ mid ++ ':' :: ws ++ (to_string n ++ rest) →
      find json (quoted key) = some pre.length →
      ':' ∉ mid → (∀ c ∈ ws, isBlank c = true) → inInt32 n →
      (∀ c, rest.head? = some c → isDigit c = false) →
      ExtractInt json key d = n)
    ∧ (find json (quoted key) = none → ExtractInt json key d = d)
    ∧ (∀ (pre mid ws t : Str),
      json = pre ++ quoted key ++ mid ++ ':' :: ws ++ t →
      find json (quoted key) = some pre.length →
      ':' ∉ mid → (∀ c ∈ ws, isBlank c = true) →
      (∀ c, t.head? = some c → isBlank c = false) →
      ((∀ c, t.head? = some c → isDigit c = false ∧ c ≠ '-')
        ∨ (∃ u, t = '-' :: u ∧ ∀ c, u.head? = some c → isDigit c = false)) →
      ExtractInt json key d = d) := by
  refine ⟨?_, ExtractInt_absent json key d, ?_⟩
  · intro pre mid ws rest n hjson hfirst hmid hws hn hrest
    exact ExtractInt_decimal json key pre mid ws rest n d hjson hfirst hmid hws hn hrest
  · intro pre mid ws t hjson hfirst hmid hws ht hnodigit
    rw [ExtractInt_eq, valueText_located json key pre mid ws t hjson hfirst hmid hws ht]
    exact intOfText_no_digit t d hnodigit

theorem C18_extract_int_reads_decimal_witness :
    ExtractInt "\x7b\"count\": -2147483648,\"id\":7\x7d".toList "count".toList 1 = -2147483648
    ∧ ExtractInt "\x7b\"count\": -2147483648,\"id\":7\x7d".toList "size".toList 1 = 1
    ∧ ExtractInt "\x7b\"count\":\"12\"\x7d".toList "count".toList 1 = 1 :=
  have h := C18_extract_int_reads_decimal "\x7b\"count\": -2147483648,\"id\":7\x7d".toList
    "count".toList 1
  ⟨h.1 "\x7b".toList [] " ".toList ",\"id\":7\x7d".toList (-2147483648) (by decide) (by decide)
      (by decide) (by decide) (by decide) (by decide),
   (C18_extract_int_reads_decimal "\x7b\"count\": -2147483648,\"id\":7\x7d".toList
      "size".toList 1).2.1 (by decide),
   (C18_extract_int_reads_decimal "\x7b\"count\":\"12\"\x7d".toList "count".toList 1).2.2
      "\x7b".toList [] [] "\"12\"\x7d".toList (by decide) (by decide) (by decide) (by decide)
      (by decide) (Or.inl (by decide))⟩

/-! ## Escaping and unescaping -/

/-- The copying loop of `ExtractString` undoes the escaping loop of `ErrorResponse` up to the
closing quote. -/
theorem readString_escape (e rest : Str) : readString (escape e ++ '"' :: rest) = e := by
  induction e with
  | nil => cases rest <;> simp [escape, readString]
  | cons c e ih =>
    by_cases hq : c = '"'
    · subst hq
      simp [escape, readString, ih]
    · by_cases hb : c = '\\'
      · subst hb
        simp [escape, readString, ih]
      · simp only [escape, hq, hb, if_false, List.cons_append]
        cases hx : escape e ++ '"' :: rest with
        | nil => simp at hx
        | cons x xs =>
          rw [readString]
          simp only [hq, hb, if_false]
          rw [← hx, ih]

/-- C20: the decoder's unescaping inverts the reply escaping: for every id and every error
message `e` (any characters, double quotes, backslashes and a trailing backslash included),
`ExtractString (ErrorResponse id e) "error" = e`. -/
theorem C20_error_message_round_trip (id : Int) (e : Str) :
    ExtractString (ErrorResponse id e) "error".toList = e := by
  rw [ExtractString_eq, valueText_located (ErrorResponse id e) "error".toList
    "\x7b\"ok\":false,".toList [] []
    ('"' :: (escape e ++ '"' :: (",\"id\":".toList ++ to_string id ++ "\x7d".toList)))]
  · simp only [if_true]
    exact readString_escape e _
  · simp [ErrorResponse, quoted]
  · simp [ErrorResponse, find, findFrom, quoted]
  · simp
  · simp
  · intro c hc
    simp at hc
    rw [← hc]
    decide

theorem C20_error_message_round_trip_witness :
    ExtractString (ErrorResponse 3 "say \"hi\" to C:\\".toList) "error".toList
      = "say \"hi\" to C:\\".toList :=
  C20_error_message_round_trip 3 "say \"hi\" to C:\\".toList

/-! ## Frame reassembly -/

theorem splitLines_no_newline (l cur : Str) (h : '\n' ∉ l) :
    splitLines l cur = ([], cur ++ l) := by
  induction l generalizing cur with
  | nil => simp [splitLines]
  | cons c l ih =>
    have hc : c ≠ '\n' := fun e => h (e ▸ List.mem_cons_self _ _)
    have hl : '\n' ∉ l := fun e => h (List.mem_cons_of_mem _ e)
    simp [splitLines, hc, ih _ hl]

theorem splitLines_first_line (l rest cur : Str) (h : '\n' ∉ l) :
    splitLines (l ++ '\n' :: rest) cur
      = ((cur ++ l) :: (splitLines rest []).1, (splitLines rest []).2) := by
  induction l generalizing cur with
  | nil => simp [splitLines]
  | cons c l ih =>
    have hc : c ≠ '\n' := fun e => h (e ▸ List.mem_cons_self _ _)
    have hl : '\n' ∉ l := fun e => h (List.mem_cons_of_mem _ e)
    simp [splitLines, hc, ih _ hl]

theorem splitLines_append (a b cur : Str) :
    splitLines (a ++ b) cur
      = ((splitLines a cur).1 ++ (splitLines b (splitLines a cur).2).1,
          (splitLines b (splitLines a cur).2).2) := by
  induction a generalizing cur with
  | nil => simp [splitLines]
  | cons c a ih =>
    by_cases hc : c = '\n'
    · simp [splitLines, hc, ih]
    · simp [splitLines, hc, ih]

theorem splitLines_tail_no_newline (a cur : Str) (h : '\n' ∉ cur) :
    '\n' ∉ (splitLines a cur).2 := by
  induction a generalizing cur with
  | nil => simpa [splitLines] using h
  | cons c a ih =>
    by_cases hc : c = '\n'
    · simpa [splitLines, hc] using ih [] (by simp)
    · have hcur : '\n' ∉ cur ++ [c] := by
        simp only [List.mem_append, List.mem_singleton, not_or]
        exact ⟨h, fun e => hc e.symm⟩
      simpa [splitLines, hc] using ih (cur ++ [c]) hcur

theorem splitLines_buffered (cur b : Str) (h : '\n' ∉ cur) :
    splitLines (cur ++ b) [] = splitLines b cur := by
  rw [splitLines_append, splitLines_no_newline cur [] h]
  simp

/-- A text has no newline, or a first line. -/
theorem first_newline (b : Str) :
    '\n' ∉ b ∨ ∃ l rest, b = l ++ '\n' :: rest ∧ '\n' ∉ l := by
  induction b with
  | nil => exact Or.inl (by simp)
  | cons c b ih =>
    by_cases hc : c = '\n'
    · exact Or.inr ⟨[], b, by simp [hc], by simp⟩
    · rcases ih with h | ⟨l, rest, hb, hl⟩
      · refine Or.inl ?_
        simp only [List.mem_cons, not_or]
        exact ⟨fun e => hc e.symm, h⟩
      · refine Or.inr ⟨c :: l, rest, by simp [hb], ?_⟩
        simp only [List.mem_cons, not_or]
        exact ⟨fun e => hc e.symm, hl⟩

theorem indexOf?_absent (l : Str) (ch : Char) (h : ch ∉ l) : l.indexOf? ch = none := by
  induction l with
  | nil => simp [List.indexOf?]
  | cons c l ih =>
    have hc : c ≠ ch := fun e => h (e ▸ List.mem_cons_self _ _)
    have hl : ch ∉ l := fun e => h (List.mem_cons_of_mem _ e)
    have := ih hl
    simp only [List.indexOf?] at this
    simp [List.indexOf?, List.findIdx?_cons, hc, this]

theorem framesOf_cons (l : Str) (lines : List Str) :
    framesOf (l :: lines)
      = if (stripCR l).isEmpty then framesOf lines else stripCR l :: framesOf lines := by
  simp only [framesOf, List.map_cons, List.filter_cons]
  split_ifs <;> simp_all

theorem framesOf_append (xs ys : List Str) :
    framesOf (xs ++ ys) = framesOf xs ++ framesOf ys := by
  simp [framesOf]

/-- The line loop hands exactly the frames of the buffer to the handler, in order, and
leaves the unterminated tail in the buffer; the fuel `buffer.length + 1` is enough. -/
theorem processLines_eq {σ : Type} (handle : Str → σ → σ) (fuel : Nat) (buffer : Str)
    (st : σ) (hfuel : buffer.length < fuel) :
    processLines handle fuel buffer st
      = ((splitLines buffer []).2,
          (framesOf (splitLines buffer []).1).foldl (fun t line => handle line t) st) := by
  induction fuel generalizing buffer st with
  | zero => omega
  | succ fuel ih =>
    rcases first_newline buffer with h | ⟨l, rest, hb, hl⟩
    · have hfind : findChar buffer '\n' 0 = none := by
        simp [findChar, indexOf?_absent buffer '\n' h]
      simp [processLines, hfind, splitLines_no_newline buffer [] h, framesOf]
    · have hfind : findChar buffer '\n' 0 = some l.length := by
        simp [findChar, hb, indexOf?_colon l rest '\n' hl]
      have htake : buffer.take l.length = l := by
        rw [hb, List.take_left]
      have hdrop : buffer.drop (l.length + 1) = rest := by
        rw [hb, show l ++ '\n' :: rest = (l ++ ['\n']) ++ rest by simp,
          show l.length + 1 = (l ++ ['\n']).length by simp, List.drop_left]
      have hstrip : (if (!l.isEmpty && l.getLast? == some '\r') = true then l.dropLast else l)
          = stripCR l := by
        cases l with
        | nil => rfl
        | cons a l => simp [stripCR]
      have hrest : rest.length < fuel := by
        have : buffer.length = l.length + 1 + rest.length := by
          rw [hb]
          simp
          omega
        omega
      simp only [processLines, hfind, htake, hdrop, hstrip]
      rw [hb, splitLines_first_line l rest [] hl, List.nil_append, framesOf_cons]
      split_ifs with hempty
      · exact ih rest st hrest
      · rw [ih rest _ hrest]
        simp

/-- The receive loop, started with a newline-free buffer. -/
theorem HandleClient_eq {σ : Type} (handle : Str → σ → σ) (chunks : List Str) (buffer : Str)
    (st : σ) (hne : ∀ c ∈ chunks, c ≠ []) (hbuf : '\n' ∉ buffer) :
    HandleClient handle chunks buffer st
      = ((splitLines (chunks.map cstr).flatten buffer).2,
          (framesOf (splitLines (chunks.map cstr).flatten buffer).1).foldl
            (fun t line => handle line t) st) := by
  induction chunks generalizing buffer st with
  | nil => simp [HandleClient, splitLines, framesOf]
  | cons chunk chunks ih =>
    have hchunk : chunk.isEmpty = false := by
      cases h : chunk with
      | nil => exact absurd h (hne chunk (List.mem_cons_self _ _))
      | cons a l => rfl
    have htail := splitLines_tail_no_newline (cstr chunk) buffer hbuf
    simp only [HandleClient, hchunk, Bool.false_eq_true, if_false]
    rw [processLines_eq handle _ _ st (Nat.lt_succ_self _), splitLines_buffered buffer _ hbuf,
      ih _ _ (fun c hc => hne c (List.mem_cons_of_mem _ hc)) htail]
    simp only [List.map_cons, List.flatten_cons]
    rw [splitLines_append (cstr chunk) (chunks.map cstr).flatten buffer, framesOf_append,
      List.foldl_append]

theorem cstr_no_nul (chunk : Str) (h : Char.ofNat 0 ∉ chunk) : cstr chunk = chunk := by
  unfold cstr
  rw [List.takeWhile_eq_self_iff]
  intro c hc
  simp only [bne_iff_ne, ne_eq]
  exact fun e => h (e ▸ hc)

/-- C17, as stated, fails for chunks holding a NUL byte: the same four bytes `a`, NUL, `b`,
newline give no frame when they arrive in one chunk (the bytes after the NUL are dropped) and
the frame `ab` when they arrive in two chunks, and neither is the line `a`, NUL, `b` of the
concatenation. -/
theorem C17_nul_byte_depends_on_chunking :
    HandleClient logFrame ["a\x00b\n".toList] [] [] = ("a".toList, [])
    ∧ HandleClient logFrame ["a\x00".toList, "b\n".toList] [] [] = ([], ["ab".toList])
    ∧ "a\x00b\n".toList = "a\x00".toList ++ "b\n".toList
    ∧ framesOf (splitLines "a\x00b\n".toList []).1 = ["a\x00b".toList] := by
  decide

/-- C17, amended: each received chunk is appended to the buffer as a C string, that is up to
its first NUL byte.  For every sequence of non-empty received chunks and every line handler,
the lines handed to the handler are, in order, the frames of the concatenation of the chunks so
cut (its newline-terminated lines, each without one trailing carriage return, the empty ones
left out), whatever the chunk boundaries, and the buffer left is the unterminated tail; for
chunks without a NUL byte that text is the concatenation of the chunks themselves. -/
theorem C17_frames_of_received_text {σ : Type} (handle : Str → σ → σ) (chunks : List Str)
    (st : σ) (hne : ∀ c ∈ chunks, c ≠ []) :
    HandleClient handle chunks [] st
      = ((splitLines (chunks.map cstr).flatten []).2,
          (framesOf (splitLines (chunks.map cstr).flatten []).1).foldl
            (fun t line => handle line t) st)
    ∧ ((∀ c ∈ chunks, Char.ofNat 0 ∉ c) → (chunks.map cstr).flatten = chunks.flatten) := by
  refine ⟨HandleClient_eq handle chunks [] st hne (by simp), ?_⟩
  intro hnul
  have hmap : chunks.map cstr = chunks.map id :=
    List.map_congr_left (fun c hc => cstr_no_nul c (hnul c hc))
  rw [hmap, List.map_id]

theorem C17_frames_of_received_text_witness :
    HandleClient logFrame ["\x7b\"method\":\"get".toList, "_state\"\x7d\r\n\nab".toList] [] []
      = ("ab".toList, ["\x7b\"method\":\"get_state\"\x7d".toList]) :=
  (C17_frames_of_received_text logFrame
    ["\x7b\"method\":\"get".toList, "_state\"\x7d\r\n\nab".toList] [] (by decide)).1.trans
    (by decide)

end McpServer
